import Mathlib

/-
  Verification of the macOS-vz-kubelet pod-lifecycle and VM-resource engine.

  This file gives a shallow embedding, in Lean 4, of the parts of the Go
  source that the specification claims speak about, and proves (or refutes)
  each claim against that embedding.  Conventions used throughout:

  * Go byte streams are modelled as `List Nat` (`Bytes`); machine integers
    stay well inside their ranges in every claim considered, so `Nat`/`Int`
    are used directly.
  * Cryptographic digests are opaque to the code under verification: the
    source only computes them (through an external library) and compares
    them for equality.  They are therefore modelled as an arbitrary function
    `H : Bytes → Nat` that theorems quantify over; no property of SHA-256 is
    assumed anywhere.
  * The gzip codec (`klauspost/pgzip`) is an external library.  It is
    modelled as a pair of functions `gzip : Bytes → Bytes` and
    `gunzip : Bytes → Option Bytes`; theorems that need the library's
    round-trip contract (`gunzip (gzip bs) = some bs`) take it as an
    explicit hypothesis and witnesses instantiate it with a concrete
    inverse pair.
  * Fallible I/O operations of the Go runtime are modelled by explicit
    fault parameters so that the error branches of the source stay
    representable.
-/

namespace MacOSVz

/-- Byte streams. -/
abbrev Bytes := List Nat

/-- The error values the embedded code distinguishes.  `canceled` is
`context.Canceled`, `deadlineExceeded` is `context.DeadlineExceeded`,
`notFound` is a `virtual-kubelet` errdefs NotFound error carrying its
message, `other` is any remaining error. -/
inductive Err where
  | canceled
  | deadlineExceeded
  | notFound (msg : String)
  | other (msg : String)
deriving DecidableEq, Repr

/-- `errdefs.IsNotFound` from virtual-kubelet. -/
def Err.isNotFound : Err → Bool
  | .notFound _ => true
  | _ => false

/-! ## Pod-phase synthesis

Embedding of `getPodPhaseFromVirtualizationGroup` (the engine's status
synthesis).  A `resource.Container` enters the function only through
`container.State.Status`, and the VM only through `State()` and
`IPAddress()`, so the group is modelled by exactly those projections. -/

/-- `resource.VirtualMachineState`. -/
inductive VirtualMachineState where
  | Preparing
  | Starting
  | Running
  | Terminating
  | Terminated
  | Failed
deriving DecidableEq, Repr

/-- `resource.ContainerStatus`. -/
inductive ContainerStatus where
  | Waiting
  | Created
  | Running
  | Paused
  | Restarting
  | OOMKilled
  | Dead
  | Unknown
deriving DecidableEq, Repr

/-- `corev1.PodPhase` (the values the function produces). -/
inductive PodPhase where
  | Pending
  | Running
  | Succeeded
  | Failed
  | Unknown
deriving DecidableEq, Repr

/-- The projections of `client.VirtualizationGroup` used by the phase
synthesis: the VM's derived state, the VM's IP address, and the status of
each auxiliary container, in slice order. -/
structure VirtualizationGroup where
  vmState : VirtualMachineState
  vmIP : String
  containers : List ContainerStatus
deriving DecidableEq, Repr

/-- The `for _, container := range groupContainers` loop of
`getPodPhaseFromVirtualizationGroup`: returns `(some phase, _)` when the
loop returns early, otherwise `(none, allContainersRunning)`. -/
def scanContainers : List ContainerStatus → Bool → Option PodPhase × Bool
  | [], allRunning => (none, allRunning)
  | c :: cs, allRunning =>
    match c with
    | .Waiting => (some .Pending, allRunning)
    | .Created => (some .Pending, allRunning)
    | .Running => scanContainers cs allRunning
    | .OOMKilled => (some .Failed, allRunning)
    | .Unknown => (some .Failed, allRunning)
    | _ => scanContainers cs false

/-- `getPodPhaseFromVirtualizationGroup` from the engine source, line by
line: the `switch` on the VM state, then the container loop, then the
`hasIP` / `allContainersRunning` tail. -/
def getPodPhaseFromVirtualizationGroup (vg : VirtualizationGroup) : PodPhase :=
  let hasIP : Bool := vg.vmIP ≠ ""
  match vg.vmState with
  | .Preparing => .Pending
  | .Starting => .Pending
  | .Terminated => .Succeeded
  | .Failed => .Failed
  | .Terminating | .Running =>
    if vg.containers.isEmpty then
      if !hasIP then .Pending else .Running
    else
      match scanContainers vg.containers true with
      | (some p, _) => p
      | (none, allRunning) =>
        if !hasIP then .Pending
        else if allRunning then .Running
        else .Unknown

/-- The phase function exactly as the specification words it (claim C1):
the checks over the auxiliary containers are read as *global* checks
applied in the stated order — first "any container Waiting or Created",
then "any container OOMKilled or Unknown", then the IP test, then "all
containers Running". -/
def specPodPhase (vg : VirtualizationGroup) : PodPhase :=
  match vg.vmState with
  | .Preparing => .Pending
  | .Starting => .Pending
  | .Terminated => .Succeeded
  | .Failed => .Failed
  | .Terminating | .Running =>
    if vg.containers.isEmpty then
      if vg.vmIP ≠ "" then .Running else .Pending
    else if vg.containers.any fun c => c = .Waiting ∨ c = .Created then .Pending
    else if vg.containers.any fun c => c = .OOMKilled ∨ c = .Unknown then .Failed
    else if vg.vmIP = "" then .Pending
    else if vg.containers.all fun c => c = .Running then .Running
    else .Unknown

/-- Does this container status make the loop in the source return early? -/
def earlyStatus (c : ContainerStatus) : Bool :=
  c = .Waiting ∨ c = .Created ∨ c = .OOMKilled ∨ c = .Unknown

/-- The amended phase function: identical to `specPodPhase` except that
the two container checks are applied to each container in slice order, the
*first* container that is Waiting/Created or OOMKilled/Unknown deciding
the verdict. -/
def specPodPhaseAmended (vg : VirtualizationGroup) : PodPhase :=
  match vg.vmState with
  | .Preparing => .Pending
  | .Starting => .Pending
  | .Terminated => .Succeeded
  | .Failed => .Failed
  | .Terminating | .Running =>
    if vg.containers.isEmpty then
      if vg.vmIP ≠ "" then .Running else .Pending
    else
      match vg.containers.find? earlyStatus with
      | some c => if c = .Waiting ∨ c = .Created then .Pending else .Failed
      | none =>
        if vg.vmIP = "" then .Pending
        else if vg.containers.all fun c => c = .Running then .Running
        else .Unknown

/-- Early return of the source loop: the first container that is
Waiting/Created or OOMKilled/Unknown decides the produced phase,
independently of the accumulator. -/
theorem scanContainers_find_some (cs : List ContainerStatus) (b : Bool) (c : ContainerStatus)
    (h : cs.find? earlyStatus = some c) :
    (scanContainers cs b).1 =
      some (if c = .Waiting ∨ c = .Created then PodPhase.Pending else PodPhase.Failed) := by
  induction cs generalizing b with
  | nil => simp [List.find?] at h
  | cons x cs ih =>
    cases x with
    | Waiting => simp [List.find?, earlyStatus] at h; cases h; simp [scanContainers]
    | Created => simp [List.find?, earlyStatus] at h; cases h; simp [scanContainers]
    | OOMKilled => simp [List.find?, earlyStatus] at h; cases h; simp [scanContainers]
    | Unknown => simp [List.find?, earlyStatus] at h; cases h; simp [scanContainers]
    | Running =>
      simp only [List.find?, earlyStatus] at h
      exact (by simpa [scanContainers] using ih b (by simpa using h))
    | Paused =>
      simp only [List.find?, earlyStatus] at h
      exact (by simpa [scanContainers] using ih false (by simpa using h))
    | Restarting =>
      simp only [List.find?, earlyStatus] at h
      exact (by simpa [scanContainers] using ih false (by simpa using h))
    | Dead =>
      simp only [List.find?, earlyStatus] at h
      exact (by simpa [scanContainers] using ih false (by simpa using h))

/-- When no container triggers an early return, the loop finishes with
`allContainersRunning` true iff every container is Running (given a true
accumulator at entry). -/
theorem scanContainers_find_none (cs : List ContainerStatus) (b : Bool)
    (h : ∀ y ∈ cs, earlyStatus y = false) :
    scanContainers cs b = (none, b && cs.all fun c => c = .Running) := by
  induction cs generalizing b with
  | nil => simp [scanContainers]
  | cons x cs ih =>
    have hcs : ∀ y ∈ cs, earlyStatus y = false := fun y hy => h y (List.mem_cons_of_mem _ hy)
    have hx := h x (List.mem_cons_self x cs)
    cases x with
    | Waiting => simp [earlyStatus] at hx
    | Created => simp [earlyStatus] at hx
    | OOMKilled => simp [earlyStatus] at hx
    | Unknown => simp [earlyStatus] at hx
    | Running => simp [scanContainers, ih b hcs, List.all_cons]
    | Paused => simp [scanContainers, ih false hcs, List.all_cons]
    | Restarting => simp [scanContainers, ih false hcs, List.all_cons]
    | Dead => simp [scanContainers, ih false hcs, List.all_cons]

/-- C1, counterexample.  The claim reads the container checks as global
checks applied in order ("Pending if any container is Waiting or Created,
Failed if any container is OOMKilled or Unknown"), but the source loop
returns on the *first* matching container: for a Running VM with IP and
auxiliary containers `[OOMKilled, Waiting]` the code yields `Failed`
while the claimed function yields `Pending`. -/
theorem c1_podPhase_counterexample :
    getPodPhaseFromVirtualizationGroup
        ⟨.Running, "192.168.64.2", [.OOMKilled, .Waiting]⟩ = .Failed ∧
      specPodPhase ⟨.Running, "192.168.64.2", [.OOMKilled, .Waiting]⟩ = .Pending ∧
      getPodPhaseFromVirtualizationGroup
          ⟨.Running, "192.168.64.2", [.OOMKilled, .Waiting]⟩ ≠
        specPodPhase ⟨.Running, "192.168.64.2", [.OOMKilled, .Waiting]⟩ := by
  refine ⟨by decide, by decide, by decide⟩

/-- C1, amended.  The synthesized pod phase is the stated function of the
VM state, the auxiliary container states and the VM IP, with the two
container checks applied per container in slice order: the first container
that is Waiting/Created gives Pending and the first that is
OOMKilled/Unknown gives Failed; when no container is in those states the
verdict is Pending on empty IP, Running when all containers are Running,
and Unknown otherwise.  The Preparing/Starting/Terminated/Failed rows and
the no-auxiliary-container rule are exactly as the claim states them. -/
theorem c1_podPhase_amended (vg : VirtualizationGroup) :
    getPodPhaseFromVirtualizationGroup vg = specPodPhaseAmended vg := by
  cases hs : vg.vmState <;>
    simp only [getPodPhaseFromVirtualizationGroup, specPodPhaseAmended, hs]
  case Terminating | Running =>
    cases hempty : vg.containers.isEmpty
    · simp only [Bool.false_eq_true, if_false]
      cases hf : vg.containers.find? earlyStatus with
      | some c =>
        have h1 := scanContainers_find_some vg.containers true c hf
        rcases hscan : scanContainers vg.containers true with ⟨p?, flag⟩
        rw [hscan] at h1
        simp at h1
        subst h1
        simp
      | none =>
        have hall : ∀ y ∈ vg.containers, earlyStatus y = false := by
          intro y hy
          have := List.find?_eq_none.mp hf y hy
          simpa using this
        rw [scanContainers_find_none vg.containers true hall]
        by_cases hip : vg.vmIP = "" <;> simp [hip]
    · simp [hempty]

/-! ## VM records: `resource.MacOSVirtualMachine`

Embedding of the VM record type and its `State()` derivation.  The
substrate instance (`vm.VirtualMachineInstance`) enters `State()` only
through `instance.State()` and `IPAddress()` through `instance.IPAddress`,
so it is modelled by those two fields. -/

/-- `vz.VirtualMachineState` of the Virtualization framework binding. -/
inductive VzState where
  | Stopped
  | Running
  | Paused
  | Error
  | Starting
  | Pausing
  | Resuming
  | Stopping
  | Saving
  | Restoring
deriving DecidableEq, Repr

/-- The projections of `vm.VirtualMachineInstance` the claims use. -/
structure VMInstance where
  state : VzState
  ip : String
deriving DecidableEq, Repr

/-- `resource.MacOSVirtualMachine`: env, the underlying instance (nil
until created) and the error state. -/
structure MacOSVirtualMachine where
  env : List (String × String)
  inst : Option VMInstance
  err : Option Err
deriving DecidableEq, Repr

/-- `resource.NewMacOSVirtualMachine`. -/
def NewMacOSVirtualMachine (env : List (String × String)) : MacOSVirtualMachine :=
  { env := env, inst := none, err := none }

/-- The `switch instance.State()` of `MacOSVirtualMachine.State`; all
states other than Starting/Running/Stopping/Stopped are considered
failed. -/
def mapVzState : VzState → VirtualMachineState
  | .Starting => .Starting
  | .Running => .Running
  | .Stopping => .Terminating
  | .Stopped => .Terminated
  | _ => .Failed

/-- `MacOSVirtualMachine.State`: a set error dominates, a missing instance
means Preparing, otherwise the substrate state is translated. -/
def MacOSVirtualMachine.State (m : MacOSVirtualMachine) : VirtualMachineState :=
  match m.err with
  | some _ => .Failed
  | none =>
    match m.inst with
    | none => .Preparing
    | some i => mapVzState i.state

/-- `MacOSVirtualMachine.IPAddress`. -/
def MacOSVirtualMachine.IPAddress (m : MacOSVirtualMachine) : String :=
  match m.inst with
  | none => ""
  | some i => i.ip

/-- `MacOSVirtualMachine.SetError`. -/
def MacOSVirtualMachine.SetError (m : MacOSVirtualMachine) (e : Err) : MacOSVirtualMachine :=
  { m with err := some e }

/-- `MacOSVirtualMachine.SetInstance`. -/
def MacOSVirtualMachine.SetInstance (m : MacOSVirtualMachine) (i : VMInstance) :
    MacOSVirtualMachine :=
  { m with inst := some i }

/-- The operations the repository performs on a VM record after its
creation: `SetInstance` (from `createVirtualMachineInstance`), the
`finalizeVirtualMachineInfo` epilogue (which calls `SetError` only when
the creation flow ended with a non-nil error — `SetError` has no other
caller in the repository), and state changes of the underlying substrate
instance. -/
inductive VMRecordOp where
  | setInstance (i : VMInstance)
  | finalize (e : Option Err)
  | substrate (s : VzState)
deriving DecidableEq, Repr

/-- Effect of one operation on the record. -/
def applyVMRecordOp (m : MacOSVirtualMachine) : VMRecordOp → MacOSVirtualMachine
  | .setInstance i => m.SetInstance i
  | .finalize e =>
    match e with
    | some e' => m.SetError e'
    | none => m
  | .substrate s => { m with inst := m.inst.map fun i => { i with state := s } }

/-- Effect of a sequence of operations. -/
def applyVMRecordOps (m : MacOSVirtualMachine) : List VMRecordOp → MacOSVirtualMachine
  | [] => m
  | op :: ops => applyVMRecordOps (applyVMRecordOp m op) ops

/-- No operation ever clears a set error. -/
theorem applyVMRecordOps_err_isSome (m : MacOSVirtualMachine) (ops : List VMRecordOp)
    (h : m.err.isSome) : (applyVMRecordOps m ops).err.isSome := by
  induction ops generalizing m with
  | nil => exact h
  | cons op ops ih =>
    refine ih _ ?_
    cases op with
    | setInstance i => exact h
    | finalize e => cases e <;> simp_all [applyVMRecordOp, MacOSVirtualMachine.SetError]
    | substrate s => exact h

/-- C8: once `last_error` is set to a non-nil value, `State()` returns
`Failed` regardless of the substrate instance's state, and it keeps doing
so under every operation the repository performs on the record for the
rest of its lifetime — no operation clears the error. -/
theorem c8_error_sticky (m : MacOSVirtualMachine) (h : m.err ≠ none) (ops : List VMRecordOp) :
    (applyVMRecordOps m ops).State = .Failed := by
  have hs : (applyVMRecordOps m ops).err.isSome :=
    applyVMRecordOps_err_isSome m ops (Option.isSome_iff_ne_none.mpr h)
  rcases Option.isSome_iff_exists.mp hs with ⟨e, he⟩
  simp [MacOSVirtualMachine.State, he]

/-- C8, witness: a record whose error is set reports `Failed` after a
substrate transition to Running, an instance replacement and an
error-free finalize. -/
theorem c8_error_sticky_witness :
    (applyVMRecordOps ⟨[], some ⟨.Running, "192.168.64.2"⟩, some (.other "boom")⟩
        [.substrate .Running, .setInstance ⟨.Running, "192.168.64.2"⟩, .finalize none]).State =
      .Failed :=
  c8_error_sticky ⟨[], some ⟨.Running, "192.168.64.2"⟩, some (.other "boom")⟩ (by decide)
    [.substrate .Running, .setInstance ⟨.Running, "192.168.64.2"⟩, .finalize none]

/-! ## VM data map: `internal/data/vm/vmdata.go`

The `sync.Map` of `VirtualMachineData` is modelled as an association list
keyed by `(podNamespace, podName)` together with the `counter` field; the
atomic counter updates of the source become plain `Int` arithmetic since
each claim considers one interleaved sequence of operations. -/

/-- `types.NamespacedName`. -/
abbrev NamespacedName := String × String

/-- `vmdata.VirtualMachineInfo`: the image ref, the VM record, and
whether `DownloadCancelFunc` is currently non-nil. -/
structure VirtualMachineInfo where
  ref : String
  resource : MacOSVirtualMachine
  downloadCancelActive : Bool
deriving DecidableEq, Repr

/-- `vmdata.VirtualMachineData`. -/
structure VirtualMachineData where
  entries : List (NamespacedName × VirtualMachineInfo)
  counter : Int
deriving DecidableEq, Repr

/-- The empty data map. -/
def emptyVMData : VirtualMachineData := { entries := [], counter := 0 }

/-- `sync.Map.Load` on the modelled map. -/
def VirtualMachineData.lookup (d : VirtualMachineData) (ns name : String) :
    Option VirtualMachineInfo :=
  (d.entries.find? fun p => p.1 = (ns, name)).map (·.2)

/-- `GetVirtualMachineInfo`. -/
def GetVirtualMachineInfo (d : VirtualMachineData) (ns name : String) :
    VirtualMachineInfo × Bool :=
  match d.lookup ns name with
  | none => (⟨"", NewMacOSVirtualMachine [], false⟩, false)
  | some info => (info, true)

/-- `GetOrCreateVirtualMachineInfo`: `LoadOrStore` plus the counter
increment when the value was actually stored.  Returns the new map, the
stored or found value, and the `loaded` flag. -/
def GetOrCreateVirtualMachineInfo (d : VirtualMachineData) (ns name : String)
    (info : VirtualMachineInfo) : VirtualMachineData × VirtualMachineInfo × Bool :=
  match d.lookup ns name with
  | some v => (d, v, true)
  | none =>
    ({ entries := ((ns, name), info) :: d.entries, counter := d.counter + 1 }, info, false)

/-- `UpdateVirtualMachineInfo`: load, apply `updateFunc`, store back; a
missing key leaves the map unchanged. -/
def UpdateVirtualMachineInfo (d : VirtualMachineData) (ns name : String)
    (f : VirtualMachineInfo → VirtualMachineInfo) : VirtualMachineData × Bool :=
  match d.lookup ns name with
  | none => (d, false)
  | some _ =>
    ({ d with
        entries := d.entries.map fun p => if p.1 = (ns, name) then (p.1, f p.2) else p },
      true)

/-- `RemoveVirtualMachineInfo`: `LoadAndDelete` plus the counter decrement
when the key was present. -/
def RemoveVirtualMachineInfo (d : VirtualMachineData) (ns name : String) :
    VirtualMachineData :=
  match d.lookup ns name with
  | none => d
  | some _ =>
    { entries := d.entries.eraseP (fun p => p.1 = (ns, name)), counter := d.counter - 1 }

/-- `Count`. -/
def VirtualMachineData.count (d : VirtualMachineData) : Int := d.counter

/-- The operation alphabet of claim C10: inserts and removals. -/
inductive VMDataOp where
  | getOrCreate (ns name : String) (info : VirtualMachineInfo)
  | remove (ns name : String)
deriving Repr

/-- Effect of one C10 operation on the data map. -/
def applyVMDataOp (d : VirtualMachineData) : VMDataOp → VirtualMachineData
  | .getOrCreate ns name info => (GetOrCreateVirtualMachineInfo d ns name info).1
  | .remove ns name => RemoveVirtualMachineInfo d ns name

/-- Effect of a sequence of C10 operations. -/
def applyVMDataOps (d : VirtualMachineData) : List VMDataOp → VirtualMachineData
  | [] => d
  | op :: ops => applyVMDataOps (applyVMDataOp d op) ops

/-- One operation preserves `counter = number of stored entries`. -/
theorem applyVMDataOp_counter (d : VirtualMachineData) (op : VMDataOp)
    (h : d.counter = d.entries.length) :
    (applyVMDataOp d op).counter = (applyVMDataOp d op).entries.length := by
  cases op with
  | getOrCreate ns name info =>
    simp only [applyVMDataOp, GetOrCreateVirtualMachineInfo]
    cases hl : d.lookup ns name with
    | some v => simpa using h
    | none => simp [h]
  | remove ns name =>
    simp only [applyVMDataOp, RemoveVirtualMachineInfo]
    cases hl : d.lookup ns name with
    | some v =>
      simp only
      rcases hf : d.entries.find? (fun p => p.1 = (ns, name)) with _ | ⟨x⟩
      · simp [VirtualMachineData.lookup, hf] at hl
      · have hmem : x ∈ d.entries := List.mem_of_find?_eq_some hf
        have hx := List.find?_some hf
        have hlen : (d.entries.eraseP fun p => p.1 = (ns, name)).length =
            d.entries.length - 1 := by
          exact List.length_eraseP_of_mem hmem hx
        have hpos : 0 < d.entries.length := List.length_pos.mpr (by
          intro hnil; rw [hnil] at hmem; simp at hmem)
        rw [hlen, h]
        omega
    | none => simpa using h

/-- C10: after any sequence of `GetOrCreateVirtualMachineInfo` and
`RemoveVirtualMachineInfo` operations starting from the empty map,
`Count()` equals the number of entries stored in the map: a storing
insert increments the counter, a removal of a present key decrements it,
and a duplicate insert or an absent-key removal leaves both unchanged. -/
theorem c10_count_matches_entries (ops : List VMDataOp) :
    (applyVMDataOps emptyVMData ops).counter =
      (applyVMDataOps emptyVMData ops).entries.length := by
  suffices h : ∀ d, d.counter = d.entries.length →
      (applyVMDataOps d ops).counter = (applyVMDataOps d ops).entries.length by
    exact h emptyVMData (by simp [emptyVMData])
  induction ops with
  | nil => intro d h; exact h
  | cons op ops ih =>
    intro d h
    exact ih _ (applyVMDataOp_counter d op h)

/-! ## Admission gate: `MacOSClient` creation flow

`canProceedWithVirtualMachineCreation` and `waitForCreationProceed` from
the resource manager, plus a transition system over the `MacOSClient`
state: the shared VM map together with the in-flight creation goroutines
(`handleVirtualMachineCreation`).  The admission-gate check and the
later `SetInstance` are *separate* steps, as in the source, where they
are separated by `setupVM`; the installation applies
`UpdateVirtualMachineInfo` to whatever record currently bears the key,
with no further check.  A record may therefore be deleted and recreated
inside that window, letting a stale installation land on the recreated
record — the system below expresses that interleaving, and the bound of
the amended claim is proved only for the disciplined regime in which a
record is never removed while a creation goroutine for its key is still
in flight. -/

/-- `MaxVirtualMachines`. -/
def MaxVirtualMachines : Int := 2

/-- `canProceedWithVirtualMachineCreation`: the check happens while the
new VM's own record is already in the map. -/
def canProceedWithVirtualMachineCreation (d : VirtualMachineData) : Bool :=
  d.count ≤ MaxVirtualMachines

/-- `waitForCreationProceed`, driven by the sequence of states the loop
observes: each schedule entry is the map observed at one poll together
with the context's error status at that poll.  The result is `some none`
when the loop returns nil, `some (some e)` when it returns the context's
error, and `none` when the given schedule ends with the loop still
polling. -/
def waitForCreationProceed : List (VirtualMachineData × Option Err) → Option (Option Err)
  | [] => none
  | (d, ctxErr) :: rest =>
    if canProceedWithVirtualMachineCreation d then some none
    else
      match ctxErr with
      | some e => some (some e)
      | none => waitForCreationProceed rest

/-- The map update applied by `handleVirtualMachineCreation` when it
stores the download cancel handle. -/
def downloadCancelUpdate : VirtualMachineInfo → VirtualMachineInfo := fun j =>
  { j with downloadCancelActive := true }

/-- The map update applied by `createVirtualMachineInstance` via
`SetInstance`. -/
def setInstanceUpdate (i : VMInstance) : VirtualMachineInfo → VirtualMachineInfo := fun j =>
  { j with resource := j.resource.SetInstance i }

/-- The map update applied by `finalizeVirtualMachineInfo`: the cancel
handle is cleared and the error is recorded only when non-nil. -/
def finalizeUpdate (e : Option Err) : VirtualMachineInfo → VirtualMachineInfo := fun j =>
  { j with
      downloadCancelActive := false,
      resource :=
        match e with
        | some e' => j.resource.SetError e'
        | none => j.resource }

/-- A substrate state change of the record's instance (the Virtualization
framework mutates the instance the record points to). -/
def substrateUpdate (s : VzState) : VirtualMachineInfo → VirtualMachineInfo := fun j =>
  { j with resource :=
      { j.resource with inst := j.resource.inst.map fun ii => { ii with state := s } } }

/-- Progress of one in-flight creation goroutine
(`handleVirtualMachineCreation`): before the gate (downloading, or
blocked at `waitForCreationProceed`), past the gate but before
`SetInstance` (inside `setupVM`), or past `SetInstance`. -/
inductive GoPhase where
  | downloading
  | gatePassed
  | installed
deriving DecidableEq, Repr

/-- One in-flight creation goroutine: the pod key it was spawned for and
how far it has progressed. -/
structure CreationGoroutine where
  key : NamespacedName
  phase : GoPhase
deriving DecidableEq, Repr

/-- The `MacOSClient` state: the shared VM map plus the in-flight
creation goroutines. -/
structure ClientState where
  data : VirtualMachineData
  goroutines : List CreationGoroutine
deriving DecidableEq, Repr

/-- The initial client state. -/
def emptyClientState : ClientState := ⟨emptyVMData, []⟩

/-- One interleaved step of the `MacOSClient`.  The `disciplined` flag
restricts nothing except `remove`: when it is true a record may only be
removed while no creation goroutine for its key is in flight; `false`
gives the unrestricted relation.  `create` covers only the storing case
of `CreateVirtualMachine` (the loaded case changes nothing and returns
`InvalidInput`).  A goroutine may stop with its deferred finalize from
any phase (`finish`): download error, `setupVM` error, `Start` error or
normal completion.  `install` applies the update to whatever record —
if any — currently bears the goroutine's key. -/
inductive ClientStep : Bool → ClientState → ClientState → Prop where
  | create (b : Bool) (s : ClientState) (ns name ref : String) (env : List (String × String))
      (h : s.data.lookup ns name = none) :
      ClientStep b s
        ⟨(GetOrCreateVirtualMachineInfo s.data ns name
            ⟨ref, NewMacOSVirtualMachine env, false⟩).1,
          ⟨(ns, name), .downloading⟩ :: s.goroutines⟩
  | setDownloadCancel (b : Bool) (s : ClientState) (ns name : String) :
      ClientStep b s
        ⟨(UpdateVirtualMachineInfo s.data ns name downloadCancelUpdate).1, s.goroutines⟩
  | gatePass (b : Bool) (s : ClientState) (i : Nat) (h : i < s.goroutines.length)
      (hp : (s.goroutines.get ⟨i, h⟩).phase = .downloading)
      (hcan : canProceedWithVirtualMachineCreation s.data = true) :
      ClientStep b s
        ⟨s.data, s.goroutines.set i ⟨(s.goroutines.get ⟨i, h⟩).key, .gatePassed⟩⟩
  | install (b : Bool) (s : ClientState) (i : Nat) (h : i < s.goroutines.length)
      (hp : (s.goroutines.get ⟨i, h⟩).phase = .gatePassed) (inst : VMInstance) :
      ClientStep b s
        ⟨(UpdateVirtualMachineInfo s.data (s.goroutines.get ⟨i, h⟩).key.1
            (s.goroutines.get ⟨i, h⟩).key.2 (setInstanceUpdate inst)).1,
          s.goroutines.set i ⟨(s.goroutines.get ⟨i, h⟩).key, .installed⟩⟩
  | finish (b : Bool) (s : ClientState) (i : Nat) (h : i < s.goroutines.length)
      (e : Option Err) :
      ClientStep b s
        ⟨(UpdateVirtualMachineInfo s.data (s.goroutines.get ⟨i, h⟩).key.1
            (s.goroutines.get ⟨i, h⟩).key.2 (finalizeUpdate e)).1,
          s.goroutines.eraseIdx i⟩
  | substrate (b : Bool) (s : ClientState) (ns name : String) (vz : VzState) :
      ClientStep b s
        ⟨(UpdateVirtualMachineInfo s.data ns name (substrateUpdate vz)).1, s.goroutines⟩
  | remove (b : Bool) (s : ClientState) (ns name : String)
      (hdisc : b = true → ∀ g ∈ s.goroutines, g.key ≠ (ns, name)) :
      ClientStep b s ⟨RemoveVirtualMachineInfo s.data ns name, s.goroutines⟩

/-- States reachable from the initial state. -/
inductive ClientReachable : Bool → ClientState → Prop where
  | init (b : Bool) : ClientReachable b emptyClientState
  | step {b : Bool} {s s' : ClientState} :
      ClientReachable b s → ClientStep b s s' → ClientReachable b s'

/-- Number of records currently holding a substrate instance. -/
def instCount (d : VirtualMachineData) : Nat :=
  d.entries.countP fun p => p.2.resource.inst.isSome

/-- Number of records whose derived state is not `Preparing` (the quantity
claim C2 bounds). -/
def nonPreparingCount (d : VirtualMachineData) : Nat :=
  d.entries.countP fun p => p.2.resource.State ≠ .Preparing

/-- Number of records in Starting/Running/Terminating/Terminated (the
bounded quantity of the amended claim). -/
def admittedStateCount (d : VirtualMachineData) : Nat :=
  d.entries.countP fun p =>
    p.2.resource.State = .Starting ∨ p.2.resource.State = .Running ∨
      p.2.resource.State = .Terminating ∨ p.2.resource.State = .Terminated

/-- Keys of the goroutines currently between the gate and their
`SetInstance` — each has reserved one of the two admission slots. -/
def gpKeys (gor : List CreationGoroutine) : List NamespacedName :=
  (gor.filter fun g => g.phase = .gatePassed).map CreationGoroutine.key

/-- Records that occupy an admission slot: they hold an instance or a
gate-passed goroutine is about to install one under their key. -/
def busyCount (s : ClientState) : Nat :=
  s.data.entries.countP fun p =>
    p.2.resource.inst.isSome = true ∨ p.1 ∈ gpKeys s.goroutines

/-- `UpdateVirtualMachineInfo` keeps the entry count. -/
theorem update_length (d : VirtualMachineData) (ns name : String)
    (f : VirtualMachineInfo → VirtualMachineInfo) :
    (UpdateVirtualMachineInfo d ns name f).1.entries.length = d.entries.length := by
  unfold UpdateVirtualMachineInfo
  cases d.lookup ns name <;> simp

/-- `UpdateVirtualMachineInfo` keeps the counter. -/
theorem update_counter (d : VirtualMachineData) (ns name : String)
    (f : VirtualMachineInfo → VirtualMachineInfo) :
    (UpdateVirtualMachineInfo d ns name f).1.counter = d.counter := by
  unfold UpdateVirtualMachineInfo
  cases d.lookup ns name <;> simp

/-- `UpdateVirtualMachineInfo` keeps the key list. -/
theorem update_keys (d : VirtualMachineData) (ns name : String)
    (f : VirtualMachineInfo → VirtualMachineInfo) :
    (UpdateVirtualMachineInfo d ns name f).1.entries.map Prod.fst =
      d.entries.map Prod.fst := by
  unfold UpdateVirtualMachineInfo
  cases d.lookup ns name with
  | none => rfl
  | some v =>
    simp only [List.map_map]
    refine List.map_congr_left fun p _ => ?_
    by_cases hp : p.1 = (ns, name) <;> simp [hp, Function.comp]

/-- A key is absent exactly when it is not among the entry keys. -/
theorem lookup_eq_none_iff (d : VirtualMachineData) (ns name : String) :
    d.lookup ns name = none ↔ (ns, name) ∉ d.entries.map Prod.fst := by
  constructor
  · intro h hmem
    obtain ⟨p, hp, hk⟩ := List.mem_map.mp hmem
    rcases hf : d.entries.find? (fun p => p.1 = (ns, name)) with _ | ⟨x⟩
    · have := List.find?_eq_none.mp hf p hp
      simp [hk] at this
    · rw [VirtualMachineData.lookup, hf] at h
      simp at h
  · intro h
    rcases hf : d.entries.find? (fun p => p.1 = (ns, name)) with _ | ⟨x⟩
    · simp [VirtualMachineData.lookup, hf]
    · exfalso
      refine h (List.mem_map.mpr ⟨x, List.mem_of_find?_eq_some hf, ?_⟩)
      simpa using List.find?_some hf

/-- An update whose function preserves a key-and-value predicate
pointwise keeps its count. -/
theorem countP_update_of_preserves (d : VirtualMachineData) (ns name : String)
    (f : VirtualMachineInfo → VirtualMachineInfo)
    (q : NamespacedName × VirtualMachineInfo → Bool)
    (hf : ∀ k v, q (k, f v) = q (k, v)) :
    (UpdateVirtualMachineInfo d ns name f).1.entries.countP q = d.entries.countP q := by
  unfold UpdateVirtualMachineInfo
  cases d.lookup ns name with
  | none => rfl
  | some v =>
    simp only [List.countP_map]
    refine List.countP_congr fun p _ => ?_
    by_cases hp : p.1 = (ns, name)
    · have hpe : ((ns, name), p.2) = p := by rw [← hp]
      simp [hp, Function.comp, hf, hpe]
    · simp [hp, Function.comp]

/-- Counting after an update against a (possibly different) predicate
before it, given pointwise implications at the updated key and
elsewhere. -/
theorem countP_update_le (d : VirtualMachineData) (ns name : String)
    (f : VirtualMachineInfo → VirtualMachineInfo)
    (q q' : NamespacedName × VirtualMachineInfo → Bool)
    (h1 : ∀ v, q ((ns, name), f v) = true → q' ((ns, name), v) = true)
    (h2 : ∀ p ∈ d.entries, ¬ p.1 = (ns, name) → q p = true → q' p = true) :
    (UpdateVirtualMachineInfo d ns name f).1.entries.countP q ≤ d.entries.countP q' := by
  unfold UpdateVirtualMachineInfo
  cases hl : d.lookup ns name with
  | none =>
    refine List.countP_mono_left fun p hp hq => ?_
    refine h2 p hp (fun hk => ?_) hq
    exact (lookup_eq_none_iff d ns name).mp hl (List.mem_map.mpr ⟨p, hp, hk⟩)
  | some v =>
    simp only [List.countP_map]
    refine List.countP_mono_left fun p hp hq => ?_
    by_cases hpk : p.1 = (ns, name)
    · have hpe : ((ns, name), p.2) = p := by rw [← hpk]
      have hq' : q ((ns, name), f p.2) = true := by
        simpa [Function.comp, hpk] using hq
      have := h1 p.2 hq'
      rwa [hpe] at this
    · refine h2 p hp hpk ?_
      simpa [Function.comp, hpk] using hq

/-- Erasing one entry of a different key keeps a key present. -/
theorem mem_map_fst_eraseP (l : List (NamespacedName × VirtualMachineInfo))
    (k k0 : NamespacedName) (hk : k ∈ l.map Prod.fst) (hne : k ≠ k0) :
    k ∈ (l.eraseP fun p => p.1 = k0).map Prod.fst := by
  induction l with
  | nil => simp at hk
  | cons x xs ih =>
    simp only [List.map_cons, List.mem_cons] at hk
    by_cases hx : x.1 = k0
    · rw [List.eraseP_cons_of_pos (by simpa using hx)]
      rcases hk with hk | hk
      · exact absurd (hk.trans hx) hne
      · exact hk
    · rw [List.eraseP_cons_of_neg (by simpa using hx)]
      simp only [List.map_cons, List.mem_cons]
      rcases hk with hk | hk
      · exact Or.inl hk
      · exact Or.inr (ih hk)

/-- Membership in the reserved-slot keys. -/
theorem mem_gpKeys (gor : List CreationGoroutine) (k : NamespacedName) :
    k ∈ gpKeys gor ↔ ∃ g ∈ gor, g.phase = .gatePassed ∧ g.key = k := by
  simp only [gpKeys, List.mem_map, List.mem_filter, decide_eq_true_eq]
  constructor
  · rintro ⟨g, ⟨hg, hph⟩, hk⟩
    exact ⟨g, hg, hph, hk⟩
  · rintro ⟨g, hg, hph, hk⟩
    exact ⟨g, ⟨hg, hph⟩, hk⟩

/-- The reserved-slot keys only shrink when every gate-passed goroutine
of the new pool was already in the old one. -/
theorem gpKeys_mono (l l' : List CreationGoroutine)
    (h : ∀ g ∈ l', g.phase = .gatePassed → g ∈ l) (k : NamespacedName)
    (hk : k ∈ gpKeys l') : k ∈ gpKeys l := by
  obtain ⟨g, hg, hph, hkey⟩ := (mem_gpKeys l' k).mp hk
  exact (mem_gpKeys l k).mpr ⟨g, h g hg hph, hph, hkey⟩

/-- Spawning a downloading goroutine reserves no slot. -/
theorem gpKeys_cons_downloading (k : NamespacedName) (gor : List CreationGoroutine) :
    gpKeys (⟨k, .downloading⟩ :: gor) = gpKeys gor := by
  simp [gpKeys, List.filter_cons]

/-- A record reporting Starting/Running/Terminating/Terminated holds an
instance (`State()` needs a substrate instance to report anything other
than `Preparing` or `Failed`). -/
theorem state_admitted_inst_isSome (m : MacOSVirtualMachine)
    (h : m.State = .Starting ∨ m.State = .Running ∨ m.State = .Terminating ∨
      m.State = .Terminated) : m.inst.isSome := by
  rcases he : m.err with _ | e
  · rcases hi : m.inst with _ | i
    · simp [MacOSVirtualMachine.State, he, hi] at h
    · simp
  · simp [MacOSVirtualMachine.State, he] at h

/-- A key is present exactly when it is among the entry keys. -/
theorem lookup_ne_none_iff (d : VirtualMachineData) (ns name : String) :
    d.lookup ns name ≠ none ↔ (ns, name) ∈ d.entries.map Prod.fst := by
  rw [Ne, lookup_eq_none_iff, not_not]

/-- `finalizeVirtualMachineInfo` never touches the instance. -/
theorem finalizeUpdate_inst (e : Option Err) (v : VirtualMachineInfo) :
    (finalizeUpdate e v).resource.inst = v.resource.inst := by
  cases e <;> rfl

/-- The inductive invariant of the disciplined system: the counter
agrees with the map size, every in-flight goroutine's key has a record,
and at most two records occupy admission slots. -/
def DisciplinedInv (s : ClientState) : Prop :=
  s.data.counter = s.data.entries.length ∧
    (∀ g ∈ s.goroutines, s.data.lookup g.key.1 g.key.2 ≠ none) ∧
    busyCount s ≤ 2

/-- Each disciplined step preserves the invariant.  The `gatePass` case
is the admission argument: the gate admits only while the whole map —
which already contains the record of every in-flight goroutine,
including the one being admitted — has at most `MaxVirtualMachines = 2`
records, and every busy record is a record.  The `install` and `finish`
cases trade a reserved slot for an instance or drop one. -/
theorem clientStep_disciplined {s s' : ClientState} (h : ClientStep true s s')
    (hinv : DisciplinedInv s) : DisciplinedInv s' := by
  obtain ⟨hcnt, hpres, hbusy⟩ := hinv
  cases h with
  | create ns name ref env hl =>
    simp only [GetOrCreateVirtualMachineInfo, hl]
    refine ⟨by simp [hcnt], ?_, ?_⟩
    · intro g hg
      rw [lookup_ne_none_iff]
      simp only [List.map_cons, List.mem_cons]
      rcases List.mem_cons.mp hg with hg | hg
      · exact Or.inl (by rw [hg])
      · exact Or.inr ((lookup_ne_none_iff _ _ _).mp (hpres g hg))
    · show List.countP _ (((ns, name), _) :: s.data.entries) ≤ 2
      simp only [gpKeys_cons_downloading]
      rw [List.countP_cons]
      have hnew : ¬ (((NewMacOSVirtualMachine env).inst.isSome = true) ∨
          (ns, name) ∈ gpKeys s.goroutines) := by
        rintro (hsome | hmem)
        · simp [NewMacOSVirtualMachine] at hsome
        · obtain ⟨g, hg, _, hkey⟩ := (mem_gpKeys _ _).mp hmem
          exact hpres g hg (by rw [hkey]; exact hl)
      simpa [hnew, busyCount] using hbusy
  | setDownloadCancel ns name =>
    refine ⟨by rw [update_counter, update_length, hcnt], ?_, ?_⟩
    · intro g hg
      rw [lookup_ne_none_iff, update_keys]
      exact (lookup_ne_none_iff _ _ _).mp (hpres g hg)
    · show List.countP _ (UpdateVirtualMachineInfo _ _ _ _).1.entries ≤ 2
      rw [countP_update_of_preserves]
      · exact hbusy
      · intro k v; rfl
  | gatePass i h hp hcan =>
    refine ⟨hcnt, ?_, ?_⟩
    · intro g hg
      rcases List.mem_or_eq_of_mem_set hg with hg | hg
      · exact hpres g hg
      · rw [hg]
        exact hpres (s.goroutines.get ⟨i, h⟩) (s.goroutines.get_mem i h)
    · have h2 : s.data.counter ≤ (2 : Int) := by
        simpa [canProceedWithVirtualMachineCreation, VirtualMachineData.count,
          MaxVirtualMachines] using hcan
      have hlen : s.data.entries.length ≤ 2 := by omega
      exact le_trans (List.countP_le_length _) hlen
  | install i h hp inst =>
    have hk0 : (s.goroutines.get ⟨i, h⟩).key ∈ gpKeys s.goroutines :=
      (mem_gpKeys _ _).mpr ⟨_, s.goroutines.get_mem i h, hp, rfl⟩
    refine ⟨by rw [update_counter, update_length, hcnt], ?_, ?_⟩
    · intro g hg
      rw [lookup_ne_none_iff, update_keys]
      rcases List.mem_or_eq_of_mem_set hg with hg | hg
      · exact (lookup_ne_none_iff _ _ _).mp (hpres g hg)
      · rw [hg]
        exact (lookup_ne_none_iff _ _ _).mp
          (hpres (s.goroutines.get ⟨i, h⟩) (s.goroutines.get_mem i h))
    · show List.countP _ (UpdateVirtualMachineInfo _ _ _ _).1.entries ≤ 2
      refine le_trans (countP_update_le _ _ _ _ _ _ ?_ ?_) hbusy
      · intro v _
        simp only [decide_eq_true_eq]
        exact Or.inr hk0
      · intro p _ _ hq
        simp only [decide_eq_true_eq] at hq ⊢
        rcases hq with hq | hq
        · exact Or.inl hq
        · refine Or.inr (gpKeys_mono _ _ ?_ _ hq)
          intro g hg hph
          rcases List.mem_or_eq_of_mem_set hg with hg | hg
          · exact hg
          · rw [hg] at hph
            simp at hph
  | finish i h e =>
    refine ⟨by rw [update_counter, update_length, hcnt], ?_, ?_⟩
    · intro g hg
      rw [lookup_ne_none_iff, update_keys]
      exact (lookup_ne_none_iff _ _ _).mp
        (hpres g ((List.eraseIdx_sublist s.goroutines i).subset hg))
    · show List.countP _ (UpdateVirtualMachineInfo _ _ _ _).1.entries ≤ 2
      refine le_trans (countP_update_le _ _ _ _ _ _ ?_ ?_) hbusy
      · intro v hq
        simp only [decide_eq_true_eq, finalizeUpdate_inst] at hq ⊢
        rcases hq with hq | hq
        · exact Or.inl hq
        · refine Or.inr (gpKeys_mono _ _ ?_ _ hq)
          intro g hg _
          exact (List.eraseIdx_sublist s.goroutines i).subset hg
      · intro p _ _ hq
        simp only [decide_eq_true_eq] at hq ⊢
        rcases hq with hq | hq
        · exact Or.inl hq
        · refine Or.inr (gpKeys_mono _ _ ?_ _ hq)
          intro g hg _
          exact (List.eraseIdx_sublist s.goroutines i).subset hg
  | substrate ns name vz =>
    refine ⟨by rw [update_counter, update_length, hcnt], ?_, ?_⟩
    · intro g hg
      rw [lookup_ne_none_iff, update_keys]
      exact (lookup_ne_none_iff _ _ _).mp (hpres g hg)
    · show List.countP _ (UpdateVirtualMachineInfo _ _ _ _).1.entries ≤ 2
      rw [countP_update_of_preserves]
      · exact hbusy
      · intro k v
        cases hv : v.resource.inst <;> simp [substrateUpdate, hv]
  | remove ns name hdisc =>
    have hd := hdisc rfl
    unfold RemoveVirtualMachineInfo
    cases hl : s.data.lookup ns name with
    | none => exact ⟨hcnt, hpres, hbusy⟩
    | some v =>
      rcases hf : s.data.entries.find? (fun p => p.1 = (ns, name)) with _ | ⟨x⟩
      · simp [VirtualMachineData.lookup, hf] at hl
      · have hmem : x ∈ s.data.entries := List.mem_of_find?_eq_some hf
        have hpos : 0 < s.data.entries.length := List.length_pos.mpr (by
          intro hnil; rw [hnil] at hmem; simp at hmem)
        refine ⟨?_, ?_, ?_⟩
        · have := List.length_eraseP_of_mem hmem (List.find?_some hf)
          simp only
          rw [this, hcnt]
          omega
        · intro g hg
          rw [lookup_ne_none_iff]
          exact mem_map_fst_eraseP _ _ _
            ((lookup_ne_none_iff _ _ _).mp (hpres g hg)) (hd g hg)
        · exact le_trans ((List.eraseP_sublist _).countP_le _) hbusy

/-- Every state reachable in the disciplined regime satisfies the
invariant. -/
theorem clientReachable_disciplined {s : ClientState} (h : ClientReachable true s) :
    DisciplinedInv s := by
  induction h with
  | init => exact ⟨rfl, by simp [emptyClientState, emptyVMData], by
      simp [busyCount, emptyClientState, emptyVMData]⟩
  | step _ hstep ih => exact clientStep_disciplined hstep ih

/-! ### A disciplined run with three failed creations

Three pods are created; each download fails before the gate, so the
deferred `finalizeVirtualMachineInfo` records the error and every record
reports `Failed` — a non-`Preparing` state — while none ever held an
instance. -/

def c2Fail1 : ClientState :=
  ⟨(GetOrCreateVirtualMachineInfo emptyClientState.data "ns" "a"
      ⟨"im", NewMacOSVirtualMachine [], false⟩).1,
    ⟨("ns", "a"), .downloading⟩ :: emptyClientState.goroutines⟩

def c2Fail2 : ClientState :=
  ⟨(GetOrCreateVirtualMachineInfo c2Fail1.data "ns" "b"
      ⟨"im", NewMacOSVirtualMachine [], false⟩).1,
    ⟨("ns", "b"), .downloading⟩ :: c2Fail1.goroutines⟩

def c2Fail3 : ClientState :=
  ⟨(GetOrCreateVirtualMachineInfo c2Fail2.data "ns" "c"
      ⟨"im", NewMacOSVirtualMachine [], false⟩).1,
    ⟨("ns", "c"), .downloading⟩ :: c2Fail2.goroutines⟩

def c2Fail4 : ClientState :=
  ⟨(UpdateVirtualMachineInfo c2Fail3.data "ns" "c"
      (finalizeUpdate (some (.other "pull")))).1, c2Fail3.goroutines.eraseIdx 0⟩

def c2Fail5 : ClientState :=
  ⟨(UpdateVirtualMachineInfo c2Fail4.data "ns" "b"
      (finalizeUpdate (some (.other "pull")))).1, c2Fail4.goroutines.eraseIdx 0⟩

def c2Fail6 : ClientState :=
  ⟨(UpdateVirtualMachineInfo c2Fail5.data "ns" "a"
      (finalizeUpdate (some (.other "pull")))).1, c2Fail5.goroutines.eraseIdx 0⟩

/-- C2, counterexample: even in the disciplined regime, a state with
three VM records in a non-`Preparing` state (`Failed`, set by
`finalizeVirtualMachineInfo` after a failed download) is reachable — the
admission gate only bounds records that reach `setupVM`, not failed
ones. -/
theorem c2_admission_counterexample :
    ClientReachable true c2Fail6 ∧ nonPreparingCount c2Fail6.data = 3 := by
  refine ⟨?_, by decide⟩
  have h1 : ClientReachable true c2Fail1 :=
    (ClientReachable.init true).step
      (.create true emptyClientState "ns" "a" "im" [] (by decide))
  have h2 : ClientReachable true c2Fail2 :=
    h1.step (.create true c2Fail1 "ns" "b" "im" [] (by decide))
  have h3 : ClientReachable true c2Fail3 :=
    h2.step (.create true c2Fail2 "ns" "c" "im" [] (by decide))
  have h4 : ClientReachable true c2Fail4 :=
    h3.step (.finish true c2Fail3 0 (by decide) (some (.other "pull")))
  have h5 : ClientReachable true c2Fail5 :=
    h4.step (.finish true c2Fail4 0 (by decide) (some (.other "pull")))
  exact h5.step (.finish true c2Fail5 0 (by decide) (some (.other "pull")))

/-! ### The stale-installation race

Without the discipline on `remove`, the window between the gate check
and `SetInstance` (the source separates them by `setupVM`, and
`UpdateVirtualMachineInfo` installs onto whatever record bears the key)
lets a record be deleted and recreated while its original creation
goroutine is still in flight; the stale `SetInstance` then lands on the
recreated record, and three records hold instances at once. -/

def c2Stale1 : ClientState :=
  ⟨(GetOrCreateVirtualMachineInfo emptyClientState.data "ns" "x"
      ⟨"im", NewMacOSVirtualMachine [], false⟩).1,
    ⟨("ns", "x"), .downloading⟩ :: emptyClientState.goroutines⟩

def c2Stale2 : ClientState :=
  ⟨c2Stale1.data, c2Stale1.goroutines.set 0 ⟨("ns", "x"), .gatePassed⟩⟩

def c2Stale3 : ClientState :=
  ⟨(GetOrCreateVirtualMachineInfo c2Stale2.data "ns" "y"
      ⟨"im", NewMacOSVirtualMachine [], false⟩).1,
    ⟨("ns", "y"), .downloading⟩ :: c2Stale2.goroutines⟩

def c2Stale4 : ClientState :=
  ⟨c2Stale3.data, c2Stale3.goroutines.set 0 ⟨("ns", "y"), .gatePassed⟩⟩

def c2Stale5 : ClientState :=
  ⟨(UpdateVirtualMachineInfo c2Stale4.data "ns" "y"
      (setInstanceUpdate ⟨.Starting, "ip"⟩)).1,
    c2Stale4.goroutines.set 0 ⟨("ns", "y"), .installed⟩⟩

def c2Stale6 : ClientState :=
  ⟨(UpdateVirtualMachineInfo c2Stale5.data "ns" "y" (finalizeUpdate none)).1,
    c2Stale5.goroutines.eraseIdx 0⟩

def c2Stale7 : ClientState :=
  ⟨RemoveVirtualMachineInfo c2Stale6.data "ns" "x", c2Stale6.goroutines⟩

def c2Stale8 : ClientState :=
  ⟨(GetOrCreateVirtualMachineInfo c2Stale7.data "ns" "z"
      ⟨"im", NewMacOSVirtualMachine [], false⟩).1,
    ⟨("ns", "z"), .downloading⟩ :: c2Stale7.goroutines⟩

def c2Stale9 : ClientState :=
  ⟨c2Stale8.data, c2Stale8.goroutines.set 0 ⟨("ns", "z"), .gatePassed⟩⟩

def c2Stale10 : ClientState :=
  ⟨(UpdateVirtualMachineInfo c2Stale9.data "ns" "z"
      (setInstanceUpdate ⟨.Starting, "ip"⟩)).1,
    c2Stale9.goroutines.set 0 ⟨("ns", "z"), .installed⟩⟩

def c2Stale11 : ClientState :=
  ⟨(UpdateVirtualMachineInfo c2Stale10.data "ns" "z" (finalizeUpdate none)).1,
    c2Stale10.goroutines.eraseIdx 0⟩

def c2Stale12 : ClientState :=
  ⟨(GetOrCreateVirtualMachineInfo c2Stale11.data "ns" "x"
      ⟨"im", NewMacOSVirtualMachine [], false⟩).1,
    ⟨("ns", "x"), .downloading⟩ :: c2Stale11.goroutines⟩

def c2Stale13 : ClientState :=
  ⟨(UpdateVirtualMachineInfo c2Stale12.data "ns" "x"
      (setInstanceUpdate ⟨.Starting, "ip"⟩)).1,
    c2Stale12.goroutines.set 1 ⟨("ns", "x"), .installed⟩⟩

/-- The stale-installation state is reachable once `remove` is allowed
while a creation goroutine for the key is still in flight. -/
theorem c2Stale_reachable : ClientReachable false c2Stale13 := by
  have h1 : ClientReachable false c2Stale1 :=
    (ClientReachable.init false).step
      (.create false emptyClientState "ns" "x" "im" [] (by decide))
  have h2 : ClientReachable false c2Stale2 :=
    h1.step (.gatePass false c2Stale1 0 (by decide) (by decide) (by decide))
  have h3 : ClientReachable false c2Stale3 :=
    h2.step (.create false c2Stale2 "ns" "y" "im" [] (by decide))
  have h4 : ClientReachable false c2Stale4 :=
    h3.step (.gatePass false c2Stale3 0 (by decide) (by decide) (by decide))
  have h5 : ClientReachable false c2Stale5 :=
    h4.step (.install false c2Stale4 0 (by decide) (by decide) ⟨.Starting, "ip"⟩)
  have h6 : ClientReachable false c2Stale6 :=
    h5.step (.finish false c2Stale5 0 (by decide) none)
  have h7 : ClientReachable false c2Stale7 :=
    h6.step (.remove false c2Stale6 "ns" "x" (fun h => nomatch h))
  have h8 : ClientReachable false c2Stale8 :=
    h7.step (.create false c2Stale7 "ns" "z" "im" [] (by decide))
  have h9 : ClientReachable false c2Stale9 :=
    h8.step (.gatePass false c2Stale8 0 (by decide) (by decide) (by decide))
  have h10 : ClientReachable false c2Stale10 :=
    h9.step (.install false c2Stale9 0 (by decide) (by decide) ⟨.Starting, "ip"⟩)
  have h11 : ClientReachable false c2Stale11 :=
    h10.step (.finish false c2Stale10 0 (by decide) none)
  have h12 : ClientReachable false c2Stale12 :=
    h11.step (.create false c2Stale11 "ns" "x" "im" [] (by decide))
  exact h12.step (.install false c2Stale12 1 (by decide) (by decide) ⟨.Starting, "ip"⟩)

/-- C2, amended: (1) in the disciplined regime — a record is never
removed while a creation goroutine for its key is in flight — every
reachable state has at most 2 records in
Starting/Running/Terminating/Terminated; (2) the gate proceeds (returns
nil) as soon as a poll sees at most `MaxVirtualMachines = 2` records,
the record under creation included; (3) when a poll sees more and the
context has ended, the gate returns the context's error; (4) when a poll
sees more and the context is live, the loop keeps polling; (5) without
the discipline, the gap between the gate check and `SetInstance` lets a
delete-and-recreate route a stale installation onto the recreated
record, reaching a state with 3 instance-holding records. -/
theorem c2_admission_amended :
    (∀ s : ClientState, ClientReachable true s → admittedStateCount s.data ≤ 2) ∧
    (∀ (d : VirtualMachineData) (ctxErr : Option Err)
        (rest : List (VirtualMachineData × Option Err)),
        canProceedWithVirtualMachineCreation d = true →
          waitForCreationProceed ((d, ctxErr) :: rest) = some none) ∧
    (∀ (d : VirtualMachineData) (e : Err)
        (rest : List (VirtualMachineData × Option Err)),
        canProceedWithVirtualMachineCreation d = false →
          waitForCreationProceed ((d, some e) :: rest) = some (some e)) ∧
    (∀ (d : VirtualMachineData) (rest : List (VirtualMachineData × Option Err)),
        canProceedWithVirtualMachineCreation d = false →
          waitForCreationProceed ((d, none) :: rest) = waitForCreationProceed rest) ∧
    (ClientReachable false c2Stale13 ∧ admittedStateCount c2Stale13.data = 3) := by
  refine ⟨?_, ?_, ?_, ?_, c2Stale_reachable, by decide⟩
  · intro s hs
    obtain ⟨-, -, hb⟩ := clientReachable_disciplined hs
    refine le_trans (List.countP_mono_left fun p hp hq => ?_) hb
    simp only [decide_eq_true_eq] at hq ⊢
    exact Or.inl (state_admitted_inst_isSome _ hq)
  · intro d ctxErr rest h
    simp [waitForCreationProceed, h]
  · intro d e rest h
    simp [waitForCreationProceed, h]
  · intro d rest h
    simp [waitForCreationProceed, h]

/-- C2, witness: the bound at the (reachable) initial state; the gate
proceeding on an empty map; the gate returning the context's
cancellation on a full map; and the gate polling past a full map to a
later admissible one. -/
theorem c2_admission_amended_witness :
    admittedStateCount emptyClientState.data ≤ 2 ∧
      waitForCreationProceed [(emptyVMData, none)] = some none ∧
      waitForCreationProceed [((⟨[], 3⟩ : VirtualMachineData), some .canceled)] =
        some (some .canceled) ∧
      waitForCreationProceed [((⟨[], 3⟩ : VirtualMachineData), none), (emptyVMData, none)] =
        some none := by
  refine ⟨c2_admission_amended.1 emptyClientState (.init true), ?_, ?_, ?_⟩
  · exact c2_admission_amended.2.1 emptyVMData none [] (by decide)
  · exact c2_admission_amended.2.2.1 ⟨[], 3⟩ .canceled [] (by decide)
  · rw [c2_admission_amended.2.2.2.1 ⟨[], 3⟩ [(emptyVMData, none)] (by decide)]
    exact c2_admission_amended.2.1 emptyVMData none [] (by decide)

/-! ## Cancellation precedence

`Manager.startDownload` (image downloader) and
`MacOSClient.execPostStartAction` both overwrite an operation error with
the governing context's error when the context has ended. -/

/-- The result cell of a download (`downloader.state`) as
`startDownload` leaves it: the fetched configuration (opaque here), the
measured duration, and the reported error. -/
structure DownloadOutcome where
  cfg : String
  duration : Nat
  err : Option Err
deriving DecidableEq, Repr

/-- `Manager.startDownload`: `state.config, state.err = Download(...)`;
`state.duration = time.Since(startTime)`; then `if ctx.Err() != nil {
state.err = ctx.Err() }`. -/
def startDownload (fetchCfg : String) (fetchErr : Option Err) (duration : Nat)
    (ctxErr : Option Err) : DownloadOutcome :=
  let st : DownloadOutcome := { cfg := fetchCfg, duration := duration, err := fetchErr }
  match ctxErr with
  | some e => { st with err := some e }
  | none => st

/-- `MacOSClient.execPostStartAction`: `err =
c.ExecInVirtualMachine(...)`; `if ctx.Err() != nil { return ctx.Err() }`;
`return err`. -/
def execPostStartAction (execErr : Option Err) (ctxErr : Option Err) : Option Err :=
  match ctxErr with
  | some e => some e
  | none => execErr

/-- C3: for the downloader's fetch task and the VM post-start exec
action, when the governing context is cancelled (`ctx.Err() =
context.Canceled`) and the underlying operation also returns its own
error, the reported error is the context's cancellation error, never the
operation's error. -/
theorem c3_cancellation_precedence (fetchCfg : String) (duration : Nat) (opErr : Err) :
    (startDownload fetchCfg (some opErr) duration (some .canceled)).err = some .canceled ∧
      execPostStartAction (some opErr) (some .canceled) = some .canceled :=
  ⟨rfl, rfl⟩

/-! ## Pod teardown

`MacOSClient.DeleteVirtualMachine` / `GetVirtualMachine` over the VM data
map, and `VzClientAPIs.DeleteVirtualizationGroup` /
`GetVirtualizationGroup` over the per-pod `extras` map.  The engine under
consideration has no auxiliary-container client (`ContainerClient` nil),
which in the source leaves `containerErr` nil on delete and a NotFound
`containerErr` on get.  The substrate `instance.Stop` outcome is the
`stopErr` oracle parameter. -/

/-- `MacOSClient.DeleteVirtualMachine`: an absent record is treated as
already gone (`return nil`); otherwise the record is removed (deferred
`RemoveVirtualMachineInfo`) after cancelling any in-flight download and
stopping the instance when one exists. -/
def DeleteVirtualMachine (d : VirtualMachineData) (ns name : String) (stopErr : Option Err) :
    VirtualMachineData × Option Err :=
  match d.lookup ns name with
  | none => (d, none)
  | some info =>
    let err :=
      match info.resource.inst with
      | some _ => stopErr
      | none => none
    (RemoveVirtualMachineInfo d ns name, err)

/-- `MacOSClient.GetVirtualMachine` (through `getVirtualMachineInfo`):
the zero record and a NotFound error when absent. -/
def GetVirtualMachine (d : VirtualMachineData) (ns name : String) :
    MacOSVirtualMachine × Option Err :=
  match d.lookup ns name with
  | none => (⟨[], none, none⟩, some (.notFound "virtual machine not found"))
  | some info => (info.resource, none)

/-- `VzClientAPIs` state: the `extras` map (keyed per pod, value the pod
volume root) and the VM data map of the embedded `MacOSClient`. -/
structure VzClientState where
  extras : List (NamespacedName × String)
  vmData : VirtualMachineData
deriving DecidableEq, Repr

/-- `errVirtualizationGroupNotFound`. -/
def errVirtualizationGroupNotFound : Err := .notFound "virtualization group not found"

/-- `VzClientAPIs.DeleteVirtualizationGroup` with no container client: a
missing `extras` entry yields `errVirtualizationGroupNotFound`; otherwise
the VM is deleted, the extras entry is removed (deferred), and a NotFound
VM error is collapsed to success. -/
def DeleteVirtualizationGroup (st : VzClientState) (ns name : String) (stopErr : Option Err) :
    VzClientState × Option Err :=
  match st.extras.find? (fun p => p.1 = (ns, name)) with
  | none => (st, some errVirtualizationGroupNotFound)
  | some _ =>
    let r := DeleteVirtualMachine st.vmData ns name stopErr
    let verdict : Option Err :=
      match r.2 with
      | some e => if e.isNotFound then none else some e
      | none => none
    ({ extras := st.extras.eraseP (fun p => p.1 = (ns, name)), vmData := r.1 }, verdict)

/-- `VzClientAPIs.GetVirtualizationGroup` with no container client:
`containerErr` is always NotFound, so a NotFound VM lookup collapses to
`errVirtualizationGroupNotFound` and a found VM is returned without
error. -/
def GetVirtualizationGroup (st : VzClientState) (ns name : String) :
    Option MacOSVirtualMachine × Option Err :=
  let r := GetVirtualMachine st.vmData ns name
  match r.2 with
  | some e =>
    if e.isNotFound then (none, some errVirtualizationGroupNotFound)
    else (some r.1, some e)
  | none => (some r.1, none)

/-- The concrete one-pod client state of the C6 counterexample. -/
def c6State : VzClientState :=
  { extras := [(("ns", "p"), "root")],
    vmData :=
      { entries := [(("ns", "p"), ⟨"img", NewMacOSVirtualMachine [], false⟩)], counter := 1 } }

/-- C6, counterexample.  After a successful group delete, a second group
delete does not return success: it fails with
`errVirtualizationGroupNotFound` (the absent-record-returns-nil rule
lives one level down, in `MacOSClient.DeleteVirtualMachine`). -/
theorem c6_teardown_counterexample :
    (DeleteVirtualizationGroup c6State "ns" "p" none).2 = none ∧
      (DeleteVirtualizationGroup (DeleteVirtualizationGroup c6State "ns" "p" none).1
          "ns" "p" none).2 = some errVirtualizationGroupNotFound ∧
      (DeleteVirtualizationGroup (DeleteVirtualizationGroup c6State "ns" "p" none).1
          "ns" "p" none).2 ≠ none := by
  refine ⟨by decide, by decide, by decide⟩

/-- Erasing the (unique) entry of a key leaves no entry for that key. -/
theorem find?_eraseP_key_none {β : Type} (l : List (NamespacedName × β)) (k : NamespacedName)
    (hnd : (l.map Prod.fst).Nodup) :
    (l.eraseP (fun p => p.1 = k)).find? (fun p => p.1 = k) = none := by
  induction l with
  | nil => simp
  | cons x xs ih =>
    rw [List.map_cons, List.nodup_cons] at hnd
    by_cases hx : x.1 = k
    · rw [List.eraseP_cons_of_pos (by simpa using hx)]
      refine List.find?_eq_none.mpr fun y hy => ?_
      have : y.1 ≠ x.1 := fun hcontra => hnd.1 (hcontra ▸ List.mem_map_of_mem Prod.fst hy)
      simpa [hx] using fun hyk => this (hyk.trans hx.symm)
    · rw [List.eraseP_cons_of_neg (by simpa using hx)]
      rw [List.find?_cons_of_neg _ (by simpa using hx)]
      exact ih hnd.2

/-- C6, amended.  After a group delete returns success: a get of the pod
returns NotFound at both levels; a repeat `DeleteVirtualMachine` of the
VM record returns success (an absent record is treated as already gone
and delete returns nil); but a repeat `DeleteVirtualizationGroup`
returns `errVirtualizationGroupNotFound` — an error the engine maps to
"already deleted".  (Map keys are unique, as for any `sync.Map`.) -/
theorem c6_teardown_amended (st : VzClientState) (ns name : String) (stopErr : Option Err)
    (hnodup : (st.extras.map Prod.fst).Nodup)
    (hnodupVm : (st.vmData.entries.map Prod.fst).Nodup)
    (hok : (DeleteVirtualizationGroup st ns name stopErr).2 = none) :
    (GetVirtualizationGroup (DeleteVirtualizationGroup st ns name stopErr).1 ns name).2 =
        some errVirtualizationGroupNotFound ∧
      (GetVirtualMachine (DeleteVirtualizationGroup st ns name stopErr).1.vmData ns name).2 =
        some (.notFound "virtual machine not found") ∧
      (∀ stopErr2, (DeleteVirtualMachine
          (DeleteVirtualizationGroup st ns name stopErr).1.vmData ns name stopErr2).2 = none) ∧
      (∀ stopErr2, (DeleteVirtualizationGroup (DeleteVirtualizationGroup st ns name stopErr).1
          ns name stopErr2).2 = some errVirtualizationGroupNotFound) := by
  rcases hfe : st.extras.find? (fun p => p.1 = (ns, name)) with _ | ⟨x⟩
  · simp [DeleteVirtualizationGroup, hfe, errVirtualizationGroupNotFound] at hok
  · have hvmlookup :
        ((DeleteVirtualMachine st.vmData ns name stopErr).1).lookup ns name = none := by
      rcases hl : st.vmData.lookup ns name with _ | ⟨info⟩
      · simp [DeleteVirtualMachine, hl]
      · simp only [DeleteVirtualMachine, hl, RemoveVirtualMachineInfo, hl]
        simp [VirtualMachineData.lookup,
          find?_eraseP_key_none st.vmData.entries (ns, name) hnodupVm]
    have hexlookup :
        (st.extras.eraseP (fun p => p.1 = (ns, name))).find?
          (fun p => p.1 = (ns, name)) = none :=
      find?_eraseP_key_none st.extras (ns, name) hnodup
    refine ⟨?_, ?_, ?_, ?_⟩
    · simp only [DeleteVirtualizationGroup, hfe]
      generalize (DeleteVirtualMachine st.vmData ns name stopErr).1 = X at hvmlookup ⊢
      simp [GetVirtualizationGroup, GetVirtualMachine, hvmlookup, Err.isNotFound]
    · simp only [DeleteVirtualizationGroup, hfe]
      generalize (DeleteVirtualMachine st.vmData ns name stopErr).1 = X at hvmlookup ⊢
      simp [GetVirtualMachine, hvmlookup]
    · intro stopErr2
      simp only [DeleteVirtualizationGroup, hfe]
      generalize (DeleteVirtualMachine st.vmData ns name stopErr).1 = X at hvmlookup ⊢
      simp [DeleteVirtualMachine, hvmlookup]
    · intro stopErr2
      simp only [DeleteVirtualizationGroup, hfe]
      simp [hexlookup]

/-- C6, witness: the amended theorem applied to a one-pod client state,
with the stop outcome nil. -/
theorem c6_teardown_amended_witness :
    (GetVirtualizationGroup (DeleteVirtualizationGroup c6State "ns" "p" none).1 "ns" "p").2 =
        some errVirtualizationGroupNotFound ∧
      (DeleteVirtualMachine (DeleteVirtualizationGroup c6State "ns" "p" none).1.vmData
          "ns" "p" none).2 = none ∧
      (DeleteVirtualizationGroup (DeleteVirtualizationGroup c6State "ns" "p" none).1
          "ns" "p" none).2 = some errVirtualizationGroupNotFound :=
  ⟨(c6_teardown_amended c6State "ns" "p" none (by decide) (by decide) (by decide)).1,
    (c6_teardown_amended c6State "ns" "p" none (by decide) (by decide) (by decide)).2.2.1 none,
    (c6_teardown_amended c6State "ns" "p" none (by decide) (by decide) (by decide)).2.2.2 none⟩

/-! ## Guest exec command builder: `internal/utils` (`BuildExecCommandString`)

Strings are built here exactly as the source concatenates them; Go's
`+=` chain associates to the left, which coincides with the
`String.join`-based rendering below because string concatenation is
associative.  `strconv.Quote` is modelled for printable-ASCII input plus
newline, tab and carriage return — the characters whose escaping the
source relies on. -/

/-- The single-quote character, written by code point to keep source
strings plain. -/
def sq : String := (Char.ofNat 39).toString

/-- The newline character. -/
def nlChar : Char := Char.ofNat 10

/-- One character of `strconv.Quote` output (printable-ASCII model). -/
def goQuoteChar (c : Char) : String :=
  if c = Char.ofNat 34 then "\\\""
  else if c = Char.ofNat 92 then "\\\\"
  else if c = nlChar then "\\n"
  else if c = Char.ofNat 9 then "\\t"
  else if c = Char.ofNat 13 then "\\r"
  else String.singleton c

/-- `strconv.Quote` (printable-ASCII model): a double-quoted Go string
literal. -/
def strconvQuote (s : String) : String :=
  "\"" ++ String.join (s.toList.map goQuoteChar) ++ "\""

/-- `corev1.EnvVar` as the builder uses it. -/
structure EnvVar where
  name : String
  value : String
deriving DecidableEq, Repr

/-- `strings.Count(v, "\n") != 0`. -/
def containsNewline (s : String) : Bool := s.toList.contains nlChar

/-- `BuildExportEnvCommand`: quote the value normally, or wrap it in a
`<<'ESCAPE_EOF'` heredoc when it spans lines. -/
def BuildExportEnvCommand (e : EnvVar) : String :=
  let value :=
    if containsNewline e.value = false then strconvQuote e.value
    else "$(cat <<" ++ sq ++ "ESCAPE_EOF" ++ sq ++ "\n" ++ e.value ++ "\nESCAPE_EOF\n)"
  "export " ++ e.name ++ "=" ++ value ++ "\n"

/-- `BuildExecCommandString`: reject commands with fewer than three words
or whose second word is not `-c`; otherwise emit the export lines, the
first two command words, `$'body'`, and the quoted positional
arguments. -/
def BuildExecCommandString (cmd : List String) (env : List EnvVar) : Option String :=
  if cmd.length < 3 ∨ cmd.getD 1 "" ≠ "-c" then none
  else
    some (String.join (env.map BuildExportEnvCommand) ++
      cmd.getD 0 "" ++ " " ++ cmd.getD 1 "" ++
      " $" ++ sq ++ cmd.getD 2 "" ++ sq ++
      String.join ((cmd.drop 3).map fun a => " " ++ strconvQuote a))

/-- The export line exactly as the claim words it. -/
def specExportLine (e : EnvVar) : String :=
  "export " ++ e.name ++ "=" ++
    (if containsNewline e.value then
      "$(cat <<" ++ sq ++ "ESCAPE_EOF" ++ sq ++ "\n" ++ e.value ++ "\nESCAPE_EOF\n)"
    else strconvQuote e.value) ++ "\n"

/-- The builder exactly as claim C9 words it: only vectors of shape
`["sh", "-c", body, args...]` — with the literal first word `sh` —
succeed; everything else is an error. -/
def specExecCommandString (cmd : List String) (env : List EnvVar) : Option String :=
  match cmd with
  | "sh" :: "-c" :: body :: args =>
    some (String.join (env.map specExportLine) ++
      "sh" ++ " " ++ "-c" ++ " $" ++ sq ++ body ++ sq ++
      String.join (args.map fun a => " " ++ strconvQuote a))
  | _ => none

/-- The amended builder: the first word is arbitrary; the command must
only have at least three words with `-c` second. -/
def specExecCommandStringAmended (cmd : List String) (env : List EnvVar) : Option String :=
  if 3 ≤ cmd.length ∧ cmd.getD 1 "" = "-c" then
    some (String.join (env.map specExportLine) ++
      cmd.getD 0 "" ++ " " ++ cmd.getD 1 "" ++
      " $" ++ sq ++ cmd.getD 2 "" ++ sq ++
      String.join ((cmd.drop 3).map fun a => " " ++ strconvQuote a))
  else none

/-- The source export line and the claim's export line agree. -/
theorem buildExportEnvCommand_eq : BuildExportEnvCommand = specExportLine := by
  funext e
  unfold BuildExportEnvCommand specExportLine
  cases h : containsNewline e.value <;> simp [h]

/-- C9, counterexample.  `["bash", "-c", "echo hi"]` is not of the
claimed shape (its first word is not `sh`), yet the builder succeeds
instead of returning an error: the source only checks the length and the
second word. -/
theorem c9_execCommand_counterexample :
    BuildExecCommandString ["bash", "-c", "echo hi"] [] =
        some ("bash -c $" ++ sq ++ "echo hi" ++ sq) ∧
      BuildExecCommandString ["bash", "-c", "echo hi"] [] ≠ none ∧
      specExecCommandString ["bash", "-c", "echo hi"] [] = none := by
  refine ⟨by decide, by decide, by decide⟩

/-- C9, amended.  For every command vector with at least three words and
`-c` second — the first word need not be `sh` — the builder returns the
concatenation of one export line per environment variable (quoted, or a
`<<'ESCAPE_EOF'` heredoc for values containing newlines), the first two
command words, `$'body'`, and each remaining argument quoted; for every
other command vector it returns an error. -/
theorem c9_execCommand_amended (cmd : List String) (env : List EnvVar) :
    BuildExecCommandString cmd env = specExecCommandStringAmended cmd env := by
  unfold BuildExecCommandString specExecCommandStringAmended
  by_cases h : cmd.length < 3 ∨ cmd.getD 1 "" ≠ "-c"
  · rw [if_pos h, if_neg]
    rintro ⟨hlen, hc⟩
    rcases h with h | h
    · omega
    · exact h hc
  · rw [if_neg h, if_pos]
    · rw [buildExportEnvCommand_eq]
    · push_neg at h
      exact h

/-! ## Content store: `pkg/oci` and `internal/disk`

The store state is the tuple of concurrent maps of `oci.Store`
(`nameToStatus` reduced to the set of names whose `exists` flag is true,
`digestToPath`, `mediaTypeToPath`, the temp-file name generator) together
with the files the store has written, modelled as a path-keyed map of
byte lists.  `sync.Map.Store` is modelled by consing the new binding in
front (lookups take the first match).  The `<path>.digest` sidecar files
are not consulted by any claim and are elided.  Fallible file-system
operations carry explicit fault flags so the error paths of the source
remain representable. -/

/-- `MediaTypeDiskImage`. -/
def MediaTypeDiskImage : String := "application/vnd.agoda.macosvz.disk.image.v1"

/-- `MediaTypeAuxImage`. -/
def MediaTypeAuxImage : String := "application/vnd.agoda.macosvz.aux.image.v1"

/-- `mediaTypeConfigV1`. -/
def mediaTypeConfigV1 : String := "application/vnd.agoda.macosvz.config.v1+json"

/-- `MediaType.Title` (`mediaTypeToTitle`; a missing key gives Go's zero
string). -/
def mediaTypeTitle (mt : String) : String :=
  if mt = mediaTypeConfigV1 then "config.json"
  else if mt = MediaTypeDiskImage then "disk.img"
  else if mt = MediaTypeAuxImage then "aux.img"
  else ""

/-- `IsMediaTypeSupported`. -/
def IsMediaTypeSupported (mt : String) : Bool :=
  mt = mediaTypeConfigV1 ∨ mt = MediaTypeDiskImage ∨ mt = MediaTypeAuxImage

/-- `ocispec.Descriptor`, reduced to the fields the store consults: the
media type, digest and size, and the three annotations
(`org.opencontainers.image.title`, `content.uncompressed-size`,
`content.uncompressed-digest`).  Digests are opaque hash values
(`Nat`); the uncompressed size is carried as the number its decimal
annotation string denotes. -/
structure Descriptor where
  mediaType : String
  digest : Nat
  size : Nat
  title : String
  uncompressedSize : Option Nat
  uncompressedDigest : Option Nat
deriving DecidableEq, Repr

/-- The external hashing and gzip codec: an arbitrary digest function and
an arbitrary compressor/decompressor pair (`klauspost/pgzip`).  The
decompressor returns `none` on streams it cannot parse. -/
structure CodecEnv where
  H : Bytes → Nat
  gzip : Bytes → Bytes
  gunzip : Bytes → Option Bytes

/-- Fault injection for the file-system operations a push performs. -/
structure PushFaults where
  tempFileFail : Bool
  createFail : Bool
  saveCopyFail : Bool
  reverifyFail : Bool
  decompressIOFail : Bool
deriving DecidableEq, Repr

/-- A fault-free run. -/
def noFaults : PushFaults := ⟨false, false, false, false, false⟩

/-- `sync.Map.Store`. -/
def storeKV {α β : Type} (l : List (α × β)) (k : α) (v : β) : List (α × β) :=
  (k, v) :: l

/-- `sync.Map.Load`. -/
def getKV {α β : Type} [DecidableEq α] (l : List (α × β)) (k : α) : Option β :=
  (l.find? fun p => p.1 = k).map (·.2)

/-- `oci.Store`. -/
structure OciStore where
  workingDir : String
  closed : Bool
  namesExist : List String
  digestToPath : List (Nat × String)
  mediaTypeToPath : List (String × String)
  files : List (String × Bytes)
  tmpCount : Nat
deriving DecidableEq, Repr

/-- `oci.New`: a fresh open store. -/
def newOciStore (workingDir : String) : OciStore :=
  { workingDir := workingDir, closed := false, namesExist := [], digestToPath := [],
    mediaTypeToPath := [], files := [], tmpCount := 0 }

/-- `Store.tempFile` names: `macosvz_file_<n>`. -/
def tmpName (n : Nat) : String := "macosvz_file_" ++ toString n

/-- `disk.CompressionResult`. -/
structure CompressionResult where
  outputData : Bytes
  compressedSize : Nat
  uncompressedSize : Nat
  gzDigest : Nat
  uncompressedDigest : Nat
deriving DecidableEq, Repr

/-- `disk.CompressFileWithPath`: the multi-writer feeds the compressed
stream to both the output file and the compressed-digest accumulator,
the tee reader feeds the source bytes to the uncompressed-digest
accumulator, and `w.UncompressedSize()` counts the bytes that entered
the gzip writer. -/
def CompressFileWithPath (env : CodecEnv) (input : Bytes) : CompressionResult :=
  let compressed := env.gzip input
  { outputData := compressed
    compressedSize := compressed.length
    uncompressedSize := input.length
    gzDigest := env.H compressed
    uncompressedDigest := env.H input }

/-- The decompressor's sparse-write block size: 64 KiB. -/
def sparseBlockSize : Nat := 64 * 1024

/-- An all-zero block. -/
def zeroChunk (bs : Nat) : Bytes := List.replicate bs 0

/-- Splitting one `Read` result into sub-blocks of at most `bs` bytes
(the `for i := 0; i < n;` loop); fuel-structural so that it evaluates in
the kernel.  `splitBlocks` supplies the sufficient fuel. -/
def splitBlocksFuel (bs : Nat) : Nat → Bytes → List Bytes
  | _, [] => []
  | 0, l => [l]
  | fuel + 1, l => l.take bs :: splitBlocksFuel bs fuel (l.drop bs)

/-- Split a byte list into blocks of at most `bs` bytes. -/
def splitBlocks (bs : Nat) (l : Bytes) : List Bytes := splitBlocksFuel bs l.length l

/-- Writing `chunk` at byte offset `off` of a file (`Seek` + `Write`);
writing past the end leaves a hole that reads as zeros. -/
def writeAt (file : Bytes) (off : Nat) (chunk : Bytes) : Bytes :=
  let f := file ++ List.replicate (off + chunk.length - file.length) 0
  f.take off ++ chunk ++ f.drop (off + chunk.length)

/-- The chunk loop of `DecompressFileWithPath`: hash every chunk, write
the non-zero ones at their logical offsets. -/
def writeChunks (bs : Nat) : Bytes → Nat → List Bytes → Bytes
  | file, _, [] => file
  | file, off, c :: cs =>
    writeChunks bs (if c = zeroChunk bs then file else writeAt file off c) (off + c.length) cs

/-- Result of `disk.DecompressFileWithPath`: the final content of the
output file and the digest computed over the decompressed stream. -/
structure DecompressResult where
  file : Bytes
  digest : Nat
deriving DecidableEq, Repr

/-- `disk.DecompressFileWithPath`: the output file is created and
pre-truncated to the declared uncompressed size (all zeros), the gzip
stream is consumed in reads (`reads` is the sequence of buffers
`r.Read` yields; any decomposition of the stream is a valid schedule and
the guard rejects sequences that are not one), every 64 KiB sub-block is
hashed, and only non-zero sub-blocks are written at their offsets. -/
def DecompressFileWithPath (env : CodecEnv) (input : Bytes) (uncompressedSize : Nat)
    (reads : List Bytes) : Option DecompressResult :=
  match env.gunzip input with
  | none => none
  | some stream =>
    if reads.flatten ≠ stream then none
    else
      let chunks := (reads.map (splitBlocks sparseBlockSize)).flatten
      some
        { file := writeChunks sparseBlockSize (List.replicate uncompressedSize 0) 0 chunks
          digest := env.H chunks.flatten }

/-- Outcome of a push. -/
inductive PushResult where
  | ok
  | okMemory
  | errClosed
  | errDuplicateName (name : String)
  | errUnsupportedMediaType (mt : String)
  | errTempFile
  | errCreate
  | errSave
  | errDecompress
  | errDigestMismatch
  | errReverify
deriving DecidableEq, Repr

/-- Did the push succeed? -/
def PushResult.isOk : PushResult → Bool
  | .ok => true
  | .okMemory => true
  | _ => false

/-- `Store.processCompressedContent`: save the gzip stream to a temp
file while verifying its digest, record `digest → temp path`, decompress
sparsely into the final path, compare the uncompressed digest against
the annotation, and only then record `media type → final path`. -/
def processCompressedContent (env : CodecEnv) (faults : PushFaults) (st : OciStore)
    (expected : Descriptor) (content : Bytes) (outputFilePath : String)
    (uSize : Nat) (uDigest : Nat) (reads : List Bytes) : OciStore × PushResult :=
  if faults.tempFileFail then (st, .errTempFile)
  else
    let path := tmpName st.tmpCount
    let st1 : OciStore := { st with tmpCount := st.tmpCount + 1 }
    if faults.saveCopyFail then (st1, .errSave)
    else
      let st2 : OciStore := { st1 with files := storeKV st1.files path content }
      if env.H content ≠ expected.digest then (st2, .errSave)
      else
        let st3 : OciStore :=
          { st2 with digestToPath := storeKV st2.digestToPath expected.digest path }
        if faults.decompressIOFail then (st3, .errDecompress)
        else
          match DecompressFileWithPath env content uSize reads with
          | none => (st3, .errDecompress)
          | some r =>
            let st4 : OciStore := { st3 with files := storeKV st3.files outputFilePath r.file }
            if r.digest ≠ uDigest then (st4, .errDigestMismatch)
            else
              ({ st4 with
                  mediaTypeToPath := storeKV st4.mediaTypeToPath expected.mediaType
                    outputFilePath }, .ok)

/-- `Store.processRegularContent`: create the final file, save the bytes
while verifying the digest, record `digest → final path`, re-verify the
file after close, and only then record `media type → final path`. -/
def processRegularContent (env : CodecEnv) (faults : PushFaults) (st : OciStore)
    (expected : Descriptor) (content : Bytes) (outputFilePath : String) :
    OciStore × PushResult :=
  if faults.createFail then (st, .errCreate)
  else
    let st1 : OciStore := { st with files := storeKV st.files outputFilePath [] }
    if faults.saveCopyFail then (st1, .errSave)
    else
      let st2 : OciStore := { st1 with files := storeKV st1.files outputFilePath content }
      if env.H content ≠ expected.digest then (st2, .errSave)
      else
        let st3 : OciStore :=
          { st2 with digestToPath := storeKV st2.digestToPath expected.digest outputFilePath }
        if faults.reverifyFail then (st3, .errReverify)
        else if env.H content ≠ expected.digest then (st3, .errReverify)
        else
          ({ st3 with
              mediaTypeToPath := storeKV st3.mediaTypeToPath expected.mediaType
                outputFilePath }, .ok)

/-- `Store.processContentByType`: both uncompressed-size and
uncompressed-digest annotations present selects the compressed path. -/
def processContentByType (env : CodecEnv) (faults : PushFaults) (st : OciStore)
    (expected : Descriptor) (content : Bytes) (outputFilePath : String)
    (reads : List Bytes) : OciStore × PushResult :=
  match expected.uncompressedSize, expected.uncompressedDigest with
  | some uSize, some uDigest =>
    processCompressedContent env faults st expected content outputFilePath uSize uDigest reads
  | _, _ => processRegularContent env faults st expected content outputFilePath

/-- `Store.Push`. -/
def push (env : CodecEnv) (faults : PushFaults) (st : OciStore) (expected : Descriptor)
    (content : Bytes) (reads : List Bytes) : OciStore × PushResult :=
  if st.closed then (st, .errClosed)
  else if expected.title = "" then (st, .okMemory)
  else if st.namesExist.contains expected.title then (st, .errDuplicateName expected.title)
  else if ¬ IsMediaTypeSupported expected.mediaType then
    (st, .errUnsupportedMediaType expected.mediaType)
  else
    let outputFilePath := st.workingDir ++ "/" ++ expected.title
    let r := processContentByType env faults st expected content outputFilePath reads
    match r.2 with
    | .ok => ({ r.1 with namesExist := expected.title :: r.1.namesExist }, .ok)
    | e => (r.1, e)

/-- `Store.Add` + `descriptorFromStorageFile`: compress the on-disk
source file (its bytes are `fileData`) into a temp file, record
`compressed digest → temp path`, build the descriptor carrying the
title, uncompressed size and uncompressed digest annotations, record
`media type → source path`, and mark the name as existing.  `none`
models the error returns. -/
def Add (env : CodecEnv) (st : OciStore) (mediaType : String) (fileData : Bytes) :
    OciStore × Option Descriptor :=
  if st.closed then (st, none)
  else if ¬ IsMediaTypeSupported mediaType then (st, none)
  else
    let name := mediaTypeTitle mediaType
    if st.namesExist.contains name then (st, none)
    else
      let path := st.workingDir ++ "/" ++ name
      let tmp := tmpName st.tmpCount
      let res := CompressFileWithPath env fileData
      let st1 : OciStore :=
        { st with
            tmpCount := st.tmpCount + 1
            files := storeKV st.files tmp res.outputData
            digestToPath := storeKV st.digestToPath res.gzDigest tmp }
      let desc : Descriptor :=
        { mediaType := mediaType, digest := res.gzDigest, size := res.compressedSize,
          title := name, uncompressedSize := some res.uncompressedSize,
          uncompressedDigest := some res.uncompressedDigest }
      ({ st1 with
          mediaTypeToPath := storeKV st1.mediaTypeToPath mediaType path
          namesExist := name :: st1.namesExist }, some desc)

/-- With enough fuel, the produced blocks concatenate back to the
input. -/
theorem flatten_splitBlocksFuel (bs : Nat) (hbs : 0 < bs) :
    ∀ (fuel : Nat) (l : Bytes), l.length ≤ fuel → (splitBlocksFuel bs fuel l).flatten = l := by
  intro fuel
  induction fuel with
  | zero =>
    intro l hl
    have : l = [] := List.eq_nil_of_length_eq_zero (Nat.le_zero.mp hl)
    subst this
    rfl
  | succ fuel ih =>
    intro l hl
    cases l with
    | nil => rfl
    | cons a as =>
      show ((a :: as).take bs :: splitBlocksFuel bs fuel ((a :: as).drop bs)).flatten = a :: as
      rw [List.flatten_cons, ih _ ?_, List.take_append_drop]
      rw [List.length_drop]
      simp only [List.length_cons] at hl ⊢
      omega

/-- The blocks of `splitBlocks` concatenate back to the input. -/
theorem flatten_splitBlocks (bs : Nat) (hbs : 0 < bs) (l : Bytes) :
    (splitBlocks bs l).flatten = l :=
  flatten_splitBlocksFuel bs hbs l.length l le_rfl

/-- Splitting every read into blocks keeps the overall stream. -/
theorem flatten_chunks_of_reads (bs : Nat) (hbs : 0 < bs) (reads : List Bytes) :
    ((reads.map (splitBlocks bs)).flatten).flatten = reads.flatten := by
  induction reads with
  | nil => rfl
  | cons r rs ih =>
    rw [List.map_cons, List.flatten_cons, List.flatten_append, flatten_splitBlocks bs hbs,
      List.flatten_cons, ih]

/-- Sparse writing into a zero region reconstructs the stream: writing
the non-zero blocks of `chunks` at their offsets into a file whose
content from `off` on is zeros of exactly the blocks' total length
produces the concatenation of the blocks there.  Skipped all-zero blocks
are already present as zeros of the pre-truncated file. -/
theorem writeChunks_reconstruct (bs : Nat) (chunks : List Bytes) :
    ∀ (file : Bytes) (off : Nat), off ≤ file.length →
      file.drop off = List.replicate chunks.flatten.length 0 →
      writeChunks bs file off chunks = file.take off ++ chunks.flatten := by
  induction chunks with
  | nil =>
    intro file off hoff hzero
    simp only [List.flatten_nil, List.length_nil, List.replicate_zero] at hzero
    have hle : file.length ≤ off := List.drop_eq_nil_iff.mp hzero
    rw [writeChunks, List.take_of_length_le hle, List.flatten_nil, List.append_nil]
  | cons c cs ih =>
    intro file off hoff hzero
    have hlen : file.length - off = c.length + cs.flatten.length := by
      have hh := congrArg List.length hzero
      simpa [List.length_drop, List.length_replicate, List.flatten_cons] using hh
    have hoffc : off + c.length ≤ file.length := by omega
    have hdrop2 : file.drop (off + c.length) = List.replicate cs.flatten.length 0 := by
      have h1 : file.drop (off + c.length) = (file.drop off).drop c.length := by
        rw [List.drop_drop]
      rw [h1, hzero, List.drop_replicate]
      congr 1
      simp only [List.flatten_cons, List.length_append]
      omega
    rw [writeChunks]
    by_cases hc : c = zeroChunk bs
    · rw [if_pos hc]
      have hclen : (file.drop off).take c.length = c := by
        rw [hzero, List.take_replicate, hc]
        simp only [List.flatten_cons, List.length_append, zeroChunk, List.length_replicate]
        congr 1
        omega
      rw [ih file (off + c.length) hoffc hdrop2, List.take_add, hclen,
        List.flatten_cons, List.append_assoc]
    · rw [if_neg hc]
      have hpadzero : off + c.length - file.length = 0 := by omega
      have hwf : writeAt file off c = file.take off ++ c ++ file.drop (off + c.length) := by
        unfold writeAt
        rw [hpadzero]
        simp
      have htakeoff : (file.take off).length = off := by
        rw [List.length_take]
        omega
      have hheadlen : (file.take off ++ c).length = off + c.length := by
        rw [List.length_append, htakeoff]
      have hlen2 : (writeAt file off c).length = file.length := by
        rw [hwf, List.append_assoc, List.length_append, List.length_append, htakeoff,
          List.length_drop]
        omega
      have hdrop3 : (writeAt file off c).drop (off + c.length) =
          List.replicate cs.flatten.length 0 := by
        rw [hwf, ← hheadlen, List.drop_left, hheadlen, hdrop2]
      have htake3 : (writeAt file off c).take (off + c.length) = file.take off ++ c := by
        rw [hwf, ← hheadlen, List.take_left]
      rw [ih (writeAt file off c) (off + c.length) (by omega) hdrop3, htake3,
        List.flatten_cons, List.append_assoc]

/-- `DecompressFileWithPath` on a stream whose declared size is its
actual length reproduces the stream as the file content, for every read
schedule, and reports the digest of the stream. -/
theorem decompressFileWithPath_eq (env : CodecEnv) (input F : Bytes) (reads : List Bytes)
    (hgz : env.gunzip input = some F) (hreads : reads.flatten = F) :
    DecompressFileWithPath env input F.length reads = some ⟨F, env.H F⟩ := by
  have hbs : 0 < sparseBlockSize := by norm_num [sparseBlockSize]
  have hchunks : ((reads.map (splitBlocks sparseBlockSize)).flatten).flatten = F := by
    rw [flatten_chunks_of_reads _ hbs, hreads]
  unfold DecompressFileWithPath
  rw [hgz]
  dsimp only
  rw [if_neg (by simp [hreads])]
  have hfile :
      writeChunks sparseBlockSize (List.replicate F.length 0) 0
        ((reads.map (splitBlocks sparseBlockSize)).flatten) = F := by
    rw [writeChunks_reconstruct sparseBlockSize _ (List.replicate F.length 0) 0 (by simp)
      (by simp [hchunks])]
    simp [hchunks]
  rw [hfile, hchunks]

/-- A supported media type has a non-empty title. -/
theorem mediaTypeTitle_ne_empty (M : String) (hM : IsMediaTypeSupported M = true) :
    mediaTypeTitle M ≠ "" := by
  have hM' := of_decide_eq_true hM
  rcases hM' with h | h | h <;> subst h <;> decide

/-- C4: for every file F and supported media type M — over any digest
function and any gzip codec satisfying the library's round-trip contract
— compressing F and then decompressing the compressed output with the
recorded uncompressed size reproduces content equal to F, whose digest
equals both the uncompressed digest computed during compression and the
digest of F (for every read schedule of the decompressor); and pushing
the descriptor produced by `Add(M, F)` together with the compressed
bytes into a fresh store verifies successfully: the push succeeds with
both digest checks passing and stores F at the payload path. -/
theorem c4_roundtrip (env : CodecEnv) (hrt : ∀ bs, env.gunzip (env.gzip bs) = some bs)
    (F : Bytes) (M : String) (hM : IsMediaTypeSupported M = true)
    (wd wd2 : String) (reads : List Bytes) (hreads : reads.flatten = F) :
    DecompressFileWithPath env (CompressFileWithPath env F).outputData
        (CompressFileWithPath env F).uncompressedSize reads =
      some ⟨F, (CompressFileWithPath env F).uncompressedDigest⟩ ∧
    (CompressFileWithPath env F).uncompressedDigest = env.H F ∧
    (∀ desc, (Add env (newOciStore wd) M F).2 = some desc →
      (push env noFaults (newOciStore wd2) desc (env.gzip F) reads).2 = .ok ∧
      getKV (push env noFaults (newOciStore wd2) desc (env.gzip F) reads).1.files
        (wd2 ++ "/" ++ mediaTypeTitle M) = some F) := by
  have htitle := mediaTypeTitle_ne_empty M hM
  refine ⟨?_, rfl, ?_⟩
  · exact decompressFileWithPath_eq env (env.gzip F) F reads (hrt F) hreads
  · intro desc hdesc
    have hadd : (Add env (newOciStore wd) M F).2 =
        some ⟨M, env.H (env.gzip F), (env.gzip F).length, mediaTypeTitle M,
          some F.length, some (env.H F)⟩ := by
      simp [Add, newOciStore, hM, CompressFileWithPath]
    rw [hadd] at hdesc
    obtain rfl : (⟨M, env.H (env.gzip F), (env.gzip F).length, mediaTypeTitle M,
        some F.length, some (env.H F)⟩ : Descriptor) = desc := Option.some.inj hdesc
    have hpush :
        push env noFaults (newOciStore wd2)
          ⟨M, env.H (env.gzip F), (env.gzip F).length, mediaTypeTitle M,
            some F.length, some (env.H F)⟩ (env.gzip F) reads =
        ({ workingDir := wd2, closed := false,
            namesExist := [mediaTypeTitle M],
            digestToPath := [(env.H (env.gzip F), tmpName 0)],
            mediaTypeToPath := [(M, wd2 ++ "/" ++ mediaTypeTitle M)],
            files := [(wd2 ++ "/" ++ mediaTypeTitle M, F), (tmpName 0, env.gzip F)],
            tmpCount := 1 }, .ok) := by
      simp only [push, processContentByType, processCompressedContent, newOciStore, noFaults,
        storeKV]
      rw [decompressFileWithPath_eq env (env.gzip F) F reads (hrt F) hreads]
      simp [htitle, hM]
    rw [hpush]
    refine ⟨rfl, ?_⟩
    simp [getKV]

/-- Concrete codec for the C4 witness: the digest is the byte count and
the compressor is the identity, a pair satisfying the round-trip
contract. -/
def c4Env : CodecEnv := ⟨fun bs => bs.length, fun bs => bs, fun bs => some bs⟩

/-- C4, witness: the round-trip theorem applied to the file
`[1, 2, 0, 3]`, the disk-image media type, and a single-read schedule. -/
theorem c4_roundtrip_witness :
    DecompressFileWithPath c4Env (CompressFileWithPath c4Env [1, 2, 0, 3]).outputData
        (CompressFileWithPath c4Env [1, 2, 0, 3]).uncompressedSize [[1, 2, 0, 3]] =
      some ⟨[1, 2, 0, 3], (CompressFileWithPath c4Env [1, 2, 0, 3]).uncompressedDigest⟩ ∧
    (CompressFileWithPath c4Env [1, 2, 0, 3]).uncompressedDigest = c4Env.H [1, 2, 0, 3] ∧
    (push c4Env noFaults (newOciStore "/b")
        ⟨MediaTypeDiskImage, 4, 4, "disk.img", some 4, some 4⟩
        (c4Env.gzip [1, 2, 0, 3]) [[1, 2, 0, 3]]).2 = .ok ∧
    getKV (push c4Env noFaults (newOciStore "/b")
        ⟨MediaTypeDiskImage, 4, 4, "disk.img", some 4, some 4⟩
        (c4Env.gzip [1, 2, 0, 3]) [[1, 2, 0, 3]]).1.files
      ("/b" ++ "/" ++ mediaTypeTitle MediaTypeDiskImage) = some [1, 2, 0, 3] := by
  have h := c4_roundtrip c4Env (fun bs => rfl) [1, 2, 0, 3] MediaTypeDiskImage (by decide)
    "/a" "/b" [[1, 2, 0, 3]] (by decide)
  have h3 := h.2.2 ⟨MediaTypeDiskImage, 4, 4, "disk.img", some 4, some 4⟩ (by decide)
  exact ⟨h.1, h.2.1, h3.1, h3.2⟩

/-- The content processors never touch the closed flag, the working
directory or the name flags. -/
theorem processContentByType_base (env : CodecEnv) (f : PushFaults) (st : OciStore)
    (e : Descriptor) (c : Bytes) (out : String) (reads : List Bytes) :
    (processContentByType env f st e c out reads).1.closed = st.closed ∧
      (processContentByType env f st e c out reads).1.workingDir = st.workingDir ∧
      (processContentByType env f st e c out reads).1.namesExist = st.namesExist := by
  unfold processContentByType processCompressedContent processRegularContent
  repeat' split
  all_goals exact ⟨rfl, rfl, rfl⟩

/-- A failing content processor leaves the media-type index untouched
(it is only written after all checks pass). -/
theorem processContentByType_fail_mediaTypeToPath (env : CodecEnv) (f : PushFaults)
    (st : OciStore) (e : Descriptor) (c : Bytes) (out : String) (reads : List Bytes) :
    (processContentByType env f st e c out reads).2 ≠ .ok →
      (processContentByType env f st e c out reads).1.mediaTypeToPath = st.mediaTypeToPath := by
  unfold processContentByType processCompressedContent processRegularContent
  repeat' split
  all_goals intro h
  all_goals first
    | rfl
    | exact absurd rfl h

/-- `Push` never changes the closed flag or the working directory. -/
theorem push_base (env : CodecEnv) (f : PushFaults) (st : OciStore) (e : Descriptor)
    (c : Bytes) (r : List Bytes) :
    (push env f st e c r).1.closed = st.closed ∧
      (push env f st e c r).1.workingDir = st.workingDir := by
  have hbase := processContentByType_base env f st e c (st.workingDir ++ "/" ++ e.title) r
  simp only [push]
  repeat' split
  all_goals simp_all

/-- `Push` only ever grows the set of existing names. -/
theorem push_namesExist_mono (env : CodecEnv) (f : PushFaults) (st : OciStore) (e : Descriptor)
    (c : Bytes) (r : List Bytes) (n : String) (h : n ∈ st.namesExist) :
    n ∈ (push env f st e c r).1.namesExist := by
  have hbase := (processContentByType_base env f st e c (st.workingDir ++ "/" ++ e.title) r).2.2
  simp only [push]
  repeat' split
  all_goals simp_all [List.mem_cons_of_mem]

/-- `Add` never changes the closed flag. -/
theorem add_closed (env : CodecEnv) (st : OciStore) (mt : String) (d : Bytes) :
    (Add env st mt d).1.closed = st.closed := by
  simp only [Add]
  repeat' split
  all_goals rfl

/-- `Add` only ever grows the set of existing names. -/
theorem add_namesExist_mono (env : CodecEnv) (st : OciStore) (mt : String) (d : Bytes)
    (n : String) (h : n ∈ st.namesExist) : n ∈ (Add env st mt d).1.namesExist := by
  simp only [Add]
  repeat' split
  all_goals simp_all [List.mem_cons_of_mem]

/-- A successful named push happened on an open store, on a name that
did not yet exist, and marks the name as existing. -/
theorem push_ok_char (env : CodecEnv) (f : PushFaults) (st : OciStore) (e : Descriptor)
    (c : Bytes) (r : List Bytes) (hok : (push env f st e c r).2 = .ok) :
    st.closed = false ∧ e.title ∉ st.namesExist ∧
      (push env f st e c r).1.namesExist = e.title :: st.namesExist := by
  by_cases h1 : st.closed
  · simp [push, h1] at hok
  · by_cases h2 : e.title = ""
    · simp [push, h1, h2] at hok
    · by_cases h3 : e.title ∈ st.namesExist
      · simp [push, h1, h2, h3] at hok
      · by_cases h4 : IsMediaTypeSupported e.mediaType
        · have hbase :=
            (processContentByType_base env f st e c (st.workingDir ++ "/" ++ e.title) r).2.2
          refine ⟨by simpa using h1, h3, ?_⟩
          simp only [push] at hok ⊢
          rw [if_neg h1, if_neg h2, if_neg (by simp [h3]), if_neg (by simp [h4])] at hok ⊢
          rcases hpc : (processContentByType env f st e c
              (st.workingDir ++ "/" ++ e.title) r).2 with
            _ | _ | _ | nm | mt | _ | _ | _ | _ | _ | _
          all_goals simp_all
        · have h4' : IsMediaTypeSupported e.mediaType = false := by simpa using h4
          simp [push, h1, h2, h3, h4'] at hok

/-- Duplicate rejection: on an open store a non-empty name that already
exists fails with `DuplicateName` whatever the descriptor, content,
schedule and faults. -/
theorem push_duplicate (env : CodecEnv) (f : PushFaults) (st : OciStore) (e : Descriptor)
    (c : Bytes) (r : List Bytes) (hclosed : st.closed = false) (hne : e.title ≠ "")
    (hmem : e.title ∈ st.namesExist) :
    (push env f st e c r).2 = .errDuplicateName e.title := by
  simp [push, hclosed, hne, hmem]

/-- The operations a client can interleave between two pushes (claim
C5): further pushes with arbitrary descriptors, contents, schedules and
faults, and `Add` calls. -/
inductive StoreOp where
  | pushOp (expected : Descriptor) (content : Bytes) (reads : List Bytes) (faults : PushFaults)
  | addOp (mediaType : String) (fileData : Bytes)

/-- Effect of one interleaved operation. -/
def applyStoreOp (env : CodecEnv) (st : OciStore) : StoreOp → OciStore
  | .pushOp e c r f => (push env f st e c r).1
  | .addOp mt d => (Add env st mt d).1

/-- Effect of a sequence of interleaved operations. -/
def applyStoreOps (env : CodecEnv) (st : OciStore) : List StoreOp → OciStore
  | [] => st
  | op :: ops => applyStoreOps env (applyStoreOp env st op) ops

/-- Interleaved operations keep the store open and keep every existing
name. -/
theorem applyStoreOps_inv (env : CodecEnv) (ops : List StoreOp) :
    ∀ (st : OciStore) (n : String), st.closed = false → n ∈ st.namesExist →
      (applyStoreOps env st ops).closed = false ∧
        n ∈ (applyStoreOps env st ops).namesExist := by
  induction ops with
  | nil => exact fun st n hc hn => ⟨hc, hn⟩
  | cons op ops ih =>
    intro st n hc hn
    refine ih _ n ?_ ?_
    · cases op with
      | pushOp e c r f => rw [applyStoreOp, (push_base env f st e c r).1]; exact hc
      | addOp mt d => rw [applyStoreOp, add_closed]; exact hc
    · cases op with
      | pushOp e c r f => exact push_namesExist_mono env f st e c r n hn
      | addOp mt d => exact add_namesExist_mono env st mt d n hn

/-- C5: after one successful push whose descriptor title is the
non-empty name n, every subsequent push whose descriptor title is n —
regardless of the content, descriptor, read schedule or faults supplied,
and after any interleaved pushes and adds — fails with
`DuplicateName`. -/
theorem c5_duplicate_name (env : CodecEnv) (st : OciStore) (d1 : Descriptor) (c1 : Bytes)
    (r1 : List Bytes) (f1 : PushFaults) (hn : d1.title ≠ "")
    (hok : (push env f1 st d1 c1 r1).2 = .ok)
    (ops : List StoreOp) (d2 : Descriptor) (ht2 : d2.title = d1.title)
    (c2 : Bytes) (r2 : List Bytes) (f2 : PushFaults) :
    (push env f2 (applyStoreOps env (push env f1 st d1 c1 r1).1 ops) d2 c2 r2).2 =
      .errDuplicateName d1.title := by
  obtain ⟨hclosed, _, hnames⟩ := push_ok_char env f1 st d1 c1 r1 hok
  have hclosed1 : (push env f1 st d1 c1 r1).1.closed = false := by
    rw [(push_base env f1 st d1 c1 r1).1]; exact hclosed
  have hmem1 : d1.title ∈ (push env f1 st d1 c1 r1).1.namesExist := by
    rw [hnames]; exact List.mem_cons_self _ _
  obtain ⟨hclosed2, hmem2⟩ :=
    applyStoreOps_inv env ops (push env f1 st d1 c1 r1).1 d1.title hclosed1 hmem1
  have := push_duplicate env f2 (applyStoreOps env (push env f1 st d1 c1 r1).1 ops) d2 c2 r2
    hclosed2 (by rw [ht2]; exact hn) (by rw [ht2]; exact hmem2)
  rw [this, ht2]

/-- C5, witness: a successful push of `disk.img` into a fresh store,
followed by one interleaved `Add` and a retry push of the same title
with different content and descriptor, which fails with
`DuplicateName`. -/
theorem c5_duplicate_name_witness :
    (push c4Env noFaults
        (applyStoreOps c4Env
          (push c4Env noFaults (newOciStore "/s")
            ⟨MediaTypeDiskImage, 2, 2, "disk.img", none, none⟩ [5, 5] []).1
          [.addOp MediaTypeAuxImage [1]])
        ⟨MediaTypeAuxImage, 9, 1, "disk.img", none, none⟩ [9, 9, 9, 9, 9, 9, 9, 9, 9] []).2 =
      .errDuplicateName "disk.img" :=
  c5_duplicate_name c4Env (newOciStore "/s") ⟨MediaTypeDiskImage, 2, 2, "disk.img", none, none⟩
    [5, 5] [] noFaults (by decide) (by decide) [.addOp MediaTypeAuxImage [1]]
    ⟨MediaTypeAuxImage, 9, 1, "disk.img", none, none⟩ (by decide)
    [9, 9, 9, 9, 9, 9, 9, 9, 9] [] noFaults

/-- Fault injection of the C7 counterexample: the post-save
re-verification (`disk.ComputeAndVerifyFileDigest`) hits an I/O
error. -/
def c7Faults : PushFaults := ⟨false, false, false, true, false⟩

/-- Regular (uncompressed) descriptor of the C7 counterexample. -/
def c7Desc : Descriptor := ⟨MediaTypeDiskImage, 2, 2, "disk.img", none, none⟩

/-- C7, counterexample.  A regular-content push stores
`digest → outputFilePath` *before* the post-save re-verification; when
that re-verification fails the push reports an error, yet the
digest-to-path index already advertises the expected payload path
`<workingDir>/<title>`. -/
theorem c7_failed_push_counterexample :
    (push c4Env c7Faults (newOciStore "/store") c7Desc [7, 7] []).2 = .errReverify ∧
      (push c4Env c7Faults (newOciStore "/store") c7Desc [7, 7] []).2.isOk = false ∧
      getKV (push c4Env c7Faults (newOciStore "/store") c7Desc [7, 7] []).1.digestToPath 2 =
        some "/store/disk.img" ∧
      "/store/disk.img" = (newOciStore "/store").workingDir ++ "/" ++ c7Desc.title := by
  refine ⟨by decide, by decide, by decide, by decide⟩

/-- C7, amended.  For every push that fails: the name's exists flag
remains false (the set of existing names is unchanged), so a retry of
the same name can proceed, and the media-type index never advertises the
payload path; the digest-to-path index, however, may be left advertising
the saved bytes — the temp-file path when a compressed push fails past
the save step, or the expected payload path itself when a regular push
fails during post-save re-verification. -/
theorem c7_failed_push_amended (env : CodecEnv) (f : PushFaults) (st : OciStore)
    (e : Descriptor) (c : Bytes) (r : List Bytes)
    (hfail : (push env f st e c r).2.isOk = false) :
    (push env f st e c r).1.namesExist = st.namesExist ∧
      (push env f st e c r).1.mediaTypeToPath = st.mediaTypeToPath ∧
      (e.title ∉ st.namesExist → e.title ∉ (push env f st e c r).1.namesExist) := by
  have hAB : (push env f st e c r).1.namesExist = st.namesExist ∧
      (push env f st e c r).1.mediaTypeToPath = st.mediaTypeToPath := by
    by_cases h1 : st.closed
    · simp [push, h1]
    · by_cases h2 : e.title = ""
      · simp [push, h1, h2, PushResult.isOk] at hfail
      · by_cases h3 : e.title ∈ st.namesExist
        · simp [push, h1, h2, h3]
        · by_cases h4 : IsMediaTypeSupported e.mediaType
          · have hbase :=
              processContentByType_base env f st e c (st.workingDir ++ "/" ++ e.title) r
            have hfailmt :=
              processContentByType_fail_mediaTypeToPath env f st e c
                (st.workingDir ++ "/" ++ e.title) r
            simp only [push] at hfail ⊢
            rw [if_neg h1, if_neg h2, if_neg (by simp [h3]), if_neg (by simp [h4])] at hfail ⊢
            rcases hpc : (processContentByType env f st e c
                (st.workingDir ++ "/" ++ e.title) r).2 with
              _ | _ | _ | nm | mt | _ | _ | _ | _ | _ | _
            all_goals first
              | exact ⟨hbase.2.2, hfailmt (by simp [hpc])⟩
              | simp_all [PushResult.isOk]
          · have h4' : IsMediaTypeSupported e.mediaType = false := by simpa using h4
            simp [push, h1, h2, h3, h4']
  exact ⟨hAB.1, hAB.2, fun hnm => by rw [hAB.1]; exact hnm⟩

/-- C7, witness: the amended theorem applied to the failing regular push
of the counterexample. -/
theorem c7_failed_push_amended_witness :
    (push c4Env c7Faults (newOciStore "/store") c7Desc [7, 7] []).1.namesExist =
        (newOciStore "/store").namesExist ∧
      (push c4Env c7Faults (newOciStore "/store") c7Desc [7, 7] []).1.mediaTypeToPath =
        (newOciStore "/store").mediaTypeToPath := by
  have h := c7_failed_push_amended c4Env c7Faults (newOciStore "/store") c7Desc [7, 7] []
    (by decide)
  exact ⟨h.1, h.2.1⟩

end MacOSVz
